import Mathlib

/-!
Verification development for the AnyType library (Go): dynamic JSON-compatible
containers (Object, List), a character-level JSON parser, and a tree-form path
resolver.  The Go sources are embedded shallowly:

* Go strings are modelled as `List Char` (the parser decodes runes, so a rune
  stream is the honest alphabet); for the one claim about invalid UTF-8 a
  byte-level model of the decoding loop is given separately.
* Go `float64` payloads are modelled as exact decimal values `m * 10^e`
  (structure `Dec`); every binary double is such a value, and the library
  only ever compares, formats and re-parses decimal spellings, so all
  arithmetic stays in `Int` and evaluates by `decide`.
* Go machine `int` is modelled as unbounded `Int`; the int64 range enters
  only through `strconv.ParseInt` (range check) and the `uint64 -> int`
  conversion, which are modelled with their explicit `2^63` bounds.
* panics and parse errors are modelled with `Except`.
-/

namespace AnyType

/-- Character string in the model (a Go string viewed as its decoded runes). -/
abbrev Str := List Char

/-- Enum of AnyType data types, from `anytype.go` (`TypeUndefined` .. `TypeFloat`). -/
inductive GoType where
  | undefined
  | tnil
  | tobject
  | tlist
  | tstring
  | tbool
  | tint
  | tfloat
deriving DecidableEq

/-- Exact decimal value `m * 10^e`; the model of a Go `float64` payload.
Every `float64` is exactly such a number, and the serializer/parser pair of
the library communicates floats only through decimal spellings, so this
carrier is faithful for every claim about them. -/
structure Dec where
  m : Int
  e : Int
deriving DecidableEq

/-- Scale two decimals to a common exponent and compare the integer mantissas:
this decides equality of the represented values. -/
def Dec.scaled (a b : Dec) : Int × Int :=
  let lo := min a.e b.e
  (a.m * 10 ^ (a.e - lo).toNat, b.m * 10 ^ (b.e - lo).toNat)

/-- Value equality of two decimals (`float64 ==` in Go). -/
def Dec.deq (a b : Dec) : Bool :=
  (Dec.scaled a b).1 == (Dec.scaled a b).2

/-- Value order on decimals (`float64 <=` in Go). -/
def Dec.dle (a b : Dec) : Bool :=
  (Dec.scaled a b).1 ≤ (Dec.scaled a b).2

/-- Strict value order on decimals (`float64 <` in Go). -/
def Dec.dlt (a b : Dec) : Bool :=
  (Dec.scaled a b).1 < (Dec.scaled a b).2

/-- Absolute value (`math.Abs`). -/
def Dec.dabs (a : Dec) : Dec := ⟨|a.m|, a.e⟩

/-- Tagged value held in a container slot: the `field` interface of
`anytype.go` with its seven concrete variants (`atNil`, `atString`, `atBool`,
`atInt`, `atFloat`, `MapObject`, the slice list).  Objects are association
lists: a Go map is unordered, but every claim-relevant operation is either
order-insensitive or quantified over orders, and uniqueness of keys is carried
as a hypothesis where it matters. -/
inductive Field where
  | fnil
  | fstr (s : Str)
  | fbool (b : Bool)
  | fint (n : Int)
  | ffloat (x : Dec)
  | fobj (o : List (Str × Field))
  | flist (l : List Field)

/-- Lookup in an object payload: Go `ego.val[key]`, `nil` when absent. -/
def lookupObj : List (Str × Field) → Str → Option Field
  | [], _ => none
  | (k, v) :: tl, key => if k = key then some v else lookupObj tl key

mutual

/-- The `isEqual` method of the `field` interface: variant-sensitive,
recursive, structural equality.  An object iterates its own entries and looks
the key up in the other object (`ego.val[k].isEqual(obj.val[k])`); a missing
key compares unequal because every `isEqual` rejects a value of another
variant (`nil` included). -/
def isEqual : Field → Field → Bool
  | .fnil, g => match g with | .fnil => true | _ => false
  | .fstr s, g => match g with | .fstr t => s == t | _ => false
  | .fbool b, g => match g with | .fbool c => b == c | _ => false
  | .fint n, g => match g with | .fint m => n == m | _ => false
  | .ffloat x, g => match g with | .ffloat y => Dec.deq x y | _ => false
  | .fobj o, g =>
      match g with
      | .fobj o₂ => (o.length == o₂.length) && objEqualEntries o o₂
      | _ => false
  | .flist l, g =>
      match g with
      | .flist l₂ => (l.length == l₂.length) && listEqualEntries l l₂
      | _ => false

/-- Entry loop of `MapObject.isEqual`: each own entry must compare equal to
the lookup of its key in the other object. -/
def objEqualEntries : List (Str × Field) → List (Str × Field) → Bool
  | [], _ => true
  | (k, v) :: tl, other =>
      (match lookupObj other k with
       | some w => isEqual v w
       | none => false) && objEqualEntries tl other

/-- Element loop of `list.isEqual`: pairwise comparison in order. -/
def listEqualEntries : List Field → List Field → Bool
  | [], _ => true
  | _, [] => false
  | a :: as, b :: bs => isEqual a b && listEqualEntries as bs

end

/-- The `Equals` method of `List` (length check plus pairwise `isEqual`). -/
def listEquals (a b : List Field) : Bool :=
  (a.length == b.length) && listEqualEntries a b

/-- The `Equals` method of `Object`. -/
def objEquals (a b : List (Str × Field)) : Bool :=
  (a.length == b.length) && objEqualEntries a b

/-! ## Digit rendering (strconv.Itoa and friends) -/

/-- Decimal digits of `n`, least significant first; `fuel` bounds the loop and
any `fuel ≥ n` is enough (the model always passes `n` itself). -/
def digitsRev (fuel n : Nat) : List Nat :=
  match fuel with
  | 0 => []
  | f + 1 => if n = 0 then [] else n % 10 :: digitsRev f (n / 10)

/-- Decimal digit character. -/
def digitChar10 (d : Nat) : Char := Char.ofNat (48 + d)

/-- Decimal rendering of a natural number, most significant digit first
(`strconv.Itoa` on nonnegative input). -/
def renderNat (n : Nat) : Str :=
  if n = 0 then ['0'] else ((digitsRev n n).reverse).map digitChar10

/-- Rendering of a Go `int` (`strconv.Itoa`): optional minus sign, digits. -/
def renderInt (i : Int) : Str :=
  if i < 0 then '-' :: renderNat i.natAbs else renderNat i.natAbs

/-- Lower-case hex digit character, as `strconv` quoting uses. -/
def hexChar (d : Nat) : Char :=
  if d < 10 then Char.ofNat (48 + d) else Char.ofNat (87 + d)

/-- Hex digits of `n`, least significant first. -/
def hexRev (fuel n : Nat) : List Nat :=
  match fuel with
  | 0 => []
  | f + 1 => if n = 0 then [] else n % 16 :: hexRev f (n / 16)

/-- Fixed-width lower-case hex rendering (width `w`, zero padded). -/
def renderHex (w n : Nat) : Str :=
  (List.range w).reverse.map (fun i => hexChar (n / 16 ^ i % 16))

/-! ## Go string quoting (strconv.Quote / strconv.Unquote)

Modelled from the documented behaviour of the Go standard library, which the
repository calls; `unicode.IsPrint` is approximated by a printable set
(printable ASCII plus non-ASCII from U+00A1 on, soft hyphen excluded).  The
approximation only moves exotic characters between the raw and the
backslash-u spelling, both of which unquote back to the same character, so
every round-trip statement is unaffected. -/

def goIsPrint (c : Char) : Bool :=
  (0x20 ≤ c.val && c.val < 0x7f) || (0xa1 ≤ c.val && c.val ≠ 0xad)

/-- Quoted spelling of one character inside a double-quoted Go literal. -/
def quoteChar (c : Char) : Str :=
  if c = '"' then ['\\', '"']
  else if c = '\\' then ['\\', '\\']
  else if goIsPrint c then [c]
  else if c = Char.ofNat 7 then ['\\', 'a']
  else if c = Char.ofNat 8 then ['\\', 'b']
  else if c = Char.ofNat 12 then ['\\', 'f']
  else if c = '\n' then ['\\', 'n']
  else if c = Char.ofNat 13 then ['\\', 'r']
  else if c = '\t' then ['\\', 't']
  else if c = Char.ofNat 11 then ['\\', 'v']
  else if c.val < 0x20 || c.val = 0x7f then '\\' :: 'x' :: renderHex 2 c.toNat
  else if c.val < 0x10000 then '\\' :: 'u' :: renderHex 4 c.toNat
  else '\\' :: 'U' :: renderHex 8 c.toNat

/-- Body of `strconv.Quote s` (everything between the outer quotes). -/
def quoteBody (s : Str) : Str := (s.map quoteChar).flatten

/-- Full `strconv.Quote`. -/
def goQuote (s : Str) : Str := '"' :: quoteBody s ++ ['"']

/-- Value of a hex digit character. -/
def hexVal (c : Char) : Option Nat :=
  if '0' ≤ c ∧ c ≤ '9' then some (c.toNat - 48)
  else if 'a' ≤ c ∧ c ≤ 'f' then some (c.toNat - 87)
  else if 'A' ≤ c ∧ c ≤ 'F' then some (c.toNat - 55)
  else none

/-- A Unicode scalar value Go would accept from a `u`/`U` escape
(`utf8.ValidRune`). -/
def validRune (n : Nat) : Bool :=
  decide (n < 0xd800 ∨ (0xe000 ≤ n ∧ n < 0x110000))

/-- Octal digit test. -/
def isOctal (c : Char) : Bool := '0' ≤ c && c ≤ '7'

/-- Unquoting of the body of a double-quoted Go literal, modelled from
`strconv.Unquote`: decodes the standard escapes, rejects a raw quote or a raw
newline, rejects malformed escapes.  A `x` escape below 0x80 denotes the same
character as the byte it writes; larger `x` escapes build raw bytes in Go and
are outside the char-level model (no serializer output contains them). -/
def unquoteBody : Str → Option Str
  | [] => some []
  | c :: tl =>
    if c = '\\' then
      match tl with
      | [] => none
      | e :: tl₂ =>
        if e = 'a' then (unquoteBody tl₂).map (Char.ofNat 7 :: ·)
        else if e = 'b' then (unquoteBody tl₂).map (Char.ofNat 8 :: ·)
        else if e = 'f' then (unquoteBody tl₂).map (Char.ofNat 12 :: ·)
        else if e = 'n' then (unquoteBody tl₂).map ('\n' :: ·)
        else if e = 'r' then (unquoteBody tl₂).map (Char.ofNat 13 :: ·)
        else if e = 't' then (unquoteBody tl₂).map ('\t' :: ·)
        else if e = 'v' then (unquoteBody tl₂).map (Char.ofNat 11 :: ·)
        else if e = '\\' then (unquoteBody tl₂).map ('\\' :: ·)
        else if e = '"' then (unquoteBody tl₂).map ('"' :: ·)
        else if e = 'x' then
          match tl₂ with
          | h₁ :: h₂ :: tl₃ =>
              match hexVal h₁ with
              | none => none
              | some d₁ =>
                match hexVal h₂ with
                | none => none
                | some d₂ => (unquoteBody tl₃).map (Char.ofNat (d₁ * 16 + d₂) :: ·)
          | _ => none
        else if e = 'u' then
          match tl₂ with
          | h₁ :: h₂ :: h₃ :: h₄ :: tl₃ =>
              match hexVal h₁ with
              | none => none
              | some d₁ =>
                match hexVal h₂ with
                | none => none
                | some d₂ =>
                  match hexVal h₃ with
                  | none => none
                  | some d₃ =>
                    match hexVal h₄ with
                    | none => none
                    | some d₄ =>
                      let n := ((d₁ * 16 + d₂) * 16 + d₃) * 16 + d₄
                      if validRune n then (unquoteBody tl₃).map (Char.ofNat n :: ·)
                      else none
          | _ => none
        else if e = 'U' then
          match tl₂ with
          | h₁ :: h₂ :: h₃ :: h₄ :: h₅ :: h₆ :: h₇ :: h₈ :: tl₃ =>
              match hexVal h₁ with
              | none => none
              | some d₁ =>
                match hexVal h₂ with
                | none => none
                | some d₂ =>
                  match hexVal h₃ with
                  | none => none
                  | some d₃ =>
                    match hexVal h₄ with
                    | none => none
                    | some d₄ =>
                      match hexVal h₅ with
                      | none => none
                      | some d₅ =>
                        match hexVal h₆ with
                        | none => none
                        | some d₆ =>
                          match hexVal h₇ with
                          | none => none
                          | some d₇ =>
                            match hexVal h₈ with
                            | none => none
                            | some d₈ =>
                              let n := ((((((d₁ * 16 + d₂) * 16 + d₃) * 16 + d₄) * 16
                                + d₅) * 16 + d₆) * 16 + d₇) * 16 + d₈
                              if validRune n then
                                (unquoteBody tl₃).map (Char.ofNat n :: ·)
                              else none
          | _ => none
        else
          match tl₂ with
          | c₂ :: c₃ :: tl₃ =>
              if isOctal e && isOctal c₂ && isOctal c₃ then
                let n := (e.toNat - 48) * 64 + (c₂.toNat - 48) * 8 + (c₃.toNat - 48)
                if n < 256 then (unquoteBody tl₃).map (Char.ofNat n :: ·) else none
              else none
          | _ => none
    else if c = '"' then none
    else if c = '\n' then none
    else (unquoteBody tl).map (c :: ·)

/-! ## Number parsing (strconv.ParseInt with base 0, strconv.ParseFloat)

Modelled from the documented behaviour of the Go standard library.  Omitted
corners, none of which any serializer output or claim input reaches: hex
float literals, the `inf`/`nan` spellings, and rounding (the model parses a
decimal spelling to its exact value). -/

/-- Digit state of the Go `underscoreOK` scanner. -/
inductive Saw where
  | start
  | digit
  | underscore
  | other
deriving DecidableEq

/-- Loop of `underscoreOK`: an underscore must follow a digit (or base
prefix) and be followed by one. -/
def underscoreLoop (hex : Bool) : Saw → Str → Bool
  | saw, [] => saw ≠ .underscore
  | saw, c :: tl =>
      if ('0' ≤ c && c ≤ '9') || (hex && 'a' ≤ c.toLower && c.toLower ≤ 'f') then
        underscoreLoop hex .digit tl
      else if c = '_' then
        if saw ≠ Saw.digit then false else underscoreLoop hex .underscore tl
      else if saw = .underscore then false
      else underscoreLoop hex .other tl

/-- The `underscoreOK` check of `strconv`: underscores are allowed only
between digits or right after a base prefix. -/
def underscoreOK (s : Str) : Bool :=
  let s₁ := match s with
    | c :: tl => if c = '-' || c = '+' then tl else s
    | [] => s
  match s₁ with
  | '0' :: c :: tl =>
      if c.toLower = 'b' || c.toLower = 'o' || c.toLower = 'x' then
        underscoreLoop (c.toLower = 'x') .digit tl
      else underscoreLoop false .start s₁
  | _ => underscoreLoop false .start s₁

/-- Value of one digit character in the given base. -/
def digitInBase (base : Nat) (c : Char) : Option Nat :=
  let d :=
    if '0' ≤ c && c ≤ '9' then some (c.toNat - 48)
    else if 'a' ≤ c.toLower && c.toLower ≤ 'z' then some (c.toLower.toNat - 87)
    else none
  match d with
  | some d => if d < base then some d else none
  | none => none

/-- Digit accumulation loop of `ParseUint` (underscores already removed). -/
def digitsLoop (base : Nat) (acc : Nat) : Str → Option Nat
  | [] => some acc
  | c :: tl =>
      match digitInBase base c with
      | some d => digitsLoop base (acc * base + d) tl
      | none => none

/-- Base detection and digit loop of `ParseUint(s, 0, 64)` on a sign-free
string with underscores already removed; fails on a value above `2^64 - 1`. -/
def parseUintCore (s : Str) : Option Nat :=
  let (base, digits) :=
    match s with
    | '0' :: c :: tl =>
        if c.toLower = 'b' && tl ≠ [] then (2, tl)
        else if c.toLower = 'o' && tl ≠ [] then (8, tl)
        else if c.toLower = 'x' && tl ≠ [] then (16, tl)
        else (8, c :: tl)
    | _ => (10, s)
  match digitsLoop base 0 digits with
  | some n => if n ≤ 2 ^ 64 - 1 then some n else none
  | none => none

/-- The model of `strconv.ParseInt(s, 0, bits.UintSize)` as `parseField` and
the tree-form resolver call it: optional sign, base prefixes, underscores,
and the `int64` range check. -/
def parseIntGo (s : Str) : Option Int :=
  if s = [] then none
  else if s.contains '_' && !underscoreOK s then none
  else
    let s := s.filter (· ≠ '_')
    let (neg, body) :=
      match s with
      | '+' :: tl => (false, tl)
      | '-' :: tl => (true, tl)
      | _ => (false, s)
    if body = [] then none
    else
      match parseUintCore body with
      | some n =>
          if neg then if n ≤ 2 ^ 63 then some (-(n : Int)) else none
          else if n < 2 ^ 63 then some (n : Int) else none
      | none => none

/-- Reads a run of decimal digits, returning their count, their value, and
the rest. -/
def scanDigits (acc : Nat) (cnt : Nat) : Str → Nat × Nat × Str
  | [] => (acc, cnt, [])
  | c :: tl =>
      if '0' ≤ c && c ≤ '9' then scanDigits (acc * 10 + (c.toNat - 48)) (cnt + 1) tl
      else (acc, cnt, c :: tl)

/-- Mantissa and exponent scanner of `ParseFloat` on a sign-free,
underscore-free string: `digits [. digits] [(e|E) [sign] digits]`, at least
one mantissa digit. -/
def parseFloatCore (neg : Bool) (s : Str) : Option Dec :=
  let (ip, ipCnt, rest) := scanDigits 0 0 s
  let (mant, fracCnt, rest) :=
    match rest with
    | '.' :: tl =>
        let (fp, fpCnt, r) := scanDigits ip 0 tl
        (fp, fpCnt, r)
    | _ => (ip, 0, rest)
  if ipCnt + fracCnt = 0 then none
  else
    let sm : Int := if neg then -(mant : Int) else (mant : Int)
    match rest with
    | [] => some ⟨sm, -(fracCnt : Int)⟩
    | e :: tl =>
        if e = 'e' || e = 'E' then
          let (esign, tl) :=
            match tl with
            | '+' :: r => ((1 : Int), r)
            | '-' :: r => ((-1 : Int), r)
            | _ => ((1 : Int), tl)
          let (ev, evCnt, r) := scanDigits 0 0 tl
          if evCnt = 0 || r ≠ [] then none
          else some ⟨sm, esign * ev - fracCnt⟩
        else none

/-- The model of `strconv.ParseFloat(s, bits.UintSize)`: sign, decimal
mantissa with optional fraction and exponent; the value returned is exact. -/
def parseFloatGo (s : Str) : Option Dec :=
  if s = [] then none
  else if s.contains '_' && !underscoreOK s then none
  else
    let s := s.filter (· ≠ '_')
    match s with
    | '+' :: tl => parseFloatCore false tl
    | '-' :: tl => parseFloatCore true tl
    | _ => parseFloatCore false s

/-- The model of `strconv.ParseBool`. -/
def parseBoolGo (s : Str) : Option Bool :=
  if s = ['1'] || s = ['t'] || s = ['T'] || s = "TRUE".toList
      || s = "true".toList || s = "True".toList then some true
  else if s = ['0'] || s = ['f'] || s = ['F'] || s = "FALSE".toList
      || s = "false".toList || s = "False".toList then some false
  else none

/-- The `parseField` cascade of `parser.go`: literal `null`, then integer,
float and boolean parse, first success winning; the resulting native value is
stored through `parseVal` as the corresponding variant. -/
def parsePrimField (s : Str) : Option Field :=
  if s = "null".toList then some .fnil
  else
    match parseIntGo s with
    | some n => some (.fint n)
    | none =>
        match parseFloatGo s with
        | some d => some (.ffloat d)
        | none =>
            match parseBoolGo s with
            | some b => some (.fbool b)
            | none => none

/-! ## Float serialization (`atFloat.serialize`) -/

/-- Strips factors of ten from the mantissa into the exponent; with
`fuel ≥ |m|` this reaches the canonical pair whose mantissa is not divisible
by ten. -/
def strip10 (fuel : Nat) (m : Int) (e : Int) : Int × Int :=
  match fuel with
  | 0 => (m, e)
  | f + 1 => if m ≠ 0 ∧ m % 10 = 0 then strip10 f (m / 10) (e + 1) else (m, e)

/-- Canonical decimal pair of a nonzero value: mantissa with no factor of
ten, adjusted exponent. -/
def normDec (d : Dec) : Int × Int := strip10 d.m.natAbs d.m d.e

/-- Fixed-point rendering, the model of
`strconv.FormatFloat(val, 'f', -1, 64)`: the shortest digit string denoting
the value exactly, with a decimal point only when needed. -/
def formatF (d : Dec) : Str :=
  if d.m = 0 then ['0']
  else
    let p := normDec d
    let sign : Str := if p.1 < 0 then ['-'] else []
    let ds := renderNat p.1.natAbs
    if 0 ≤ p.2 then sign ++ ds ++ List.replicate p.2.toNat '0'
    else
      let t := (-p.2).toNat
      if t < ds.length then
        sign ++ ds.take (ds.length - t) ++ '.' :: ds.drop (ds.length - t)
      else
        sign ++ '0' :: '.' :: List.replicate (t - ds.length) '0' ++ ds

/-- Exponential rendering, the model of
`strconv.FormatFloat(val, 'e', -1, 64)`: `d[.ddd]e±XX` with a two-digit
minimum exponent and a shortest mantissa. -/
def formatE (d : Dec) : Str :=
  if d.m = 0 then "0e+00".toList
  else
    let p := normDec d
    let sign : Str := if p.1 < 0 then ['-'] else []
    let ds := renderNat p.1.natAbs
    let ex : Int := p.2 + ds.length - 1
    let mant : Str :=
      match ds with
      | [] => []
      | d₀ :: rest => if rest = [] then [d₀] else d₀ :: '.' :: rest
    let esign : Str := if ex < 0 then ['-'] else ['+']
    let eds := renderNat ex.natAbs
    sign ++ mant ++ 'e' :: esign ++ (if eds.length < 2 then '0' :: eds else eds)

/-- The `atFloat.serialize` method: exponential format when the magnitude is
at least `math.Pow10(6)` or nonzero and at most `math.Pow10(-6)`, fixed
format otherwise. -/
def atFloatSerialize (d : Dec) : Str :=
  let abs := d.dabs
  if Dec.dle ⟨1, 6⟩ abs || (Dec.dlt ⟨0, 0⟩ abs && Dec.dle abs ⟨1, -6⟩) then
    formatE d
  else formatF d

/-! ## Serialization of containers -/

/-- Opening brace character (spelled by code point to keep braces out of
string literals). -/
def braceOpen : Char := Char.ofNat 123

/-- Closing brace character. -/
def braceClose : Char := Char.ofNat 125

mutual

/-- The `serialize` method of the `field` interface, variant by variant:
`null`, `strconv.FormatBool`, `strconv.Itoa`, the float policy above,
`strconv.Quote`, and the bracketed comma-joined forms for containers. -/
def serializeField : Field → Str
  | .fnil => "null".toList
  | .fbool b => if b then "true".toList else "false".toList
  | .fint n => renderInt n
  | .ffloat d => atFloatSerialize d
  | .fstr s => goQuote s
  | .flist l => '[' :: serializeItems l ++ [']']
  | .fobj o => braceOpen :: serializeEntries o ++ [braceClose]

/-- Element loop of `list.serialize`: items joined by commas. -/
def serializeItems : List Field → Str
  | [] => []
  | [v] => serializeField v
  | v :: vs => serializeField v ++ ',' :: serializeItems vs

/-- Entry loop of `MapObject.serialize`: `strconv.Quote(key) : value`, joined
by commas, in the association order of the model. -/
def serializeEntries : List (Str × Field) → Str
  | [] => []
  | [(k, v)] => goQuote k ++ ':' :: serializeField v
  | (k, v) :: tl => goQuote k ++ ':' :: serializeField v ++ ',' :: serializeEntries tl

end

/-! ## The JSON parser (`parser.go`) at character level

The Go functions `parseList` and `parseObject` iterate over the decoded
runes of the input with a state enum, an accumulating token buffer `val`, an
`inVal` flag, and a line counter; a nested container is parsed by a
recursive call on the rest of the input and the caller resumes after the
closing bracket.  The model mirrors that loop one rune per step; `fuel`
bounds the recursion and any `fuel` larger than the input length is enough
(the entry points pass `length + 1`).  A returned pair carries the built
container and the input remaining after the closing bracket. -/

/-- Parse and panic outcomes of the parser model, one constructor per
distinct Go error or panic site. -/
inductive PErr where
  /-- Fuel ran out; a modelling device, unreachable when the entry fuel
  exceeds the input length. -/
  | outOfFuel
  /-- Error `not an UTF-8 encoding` (the `size == 0` branch). -/
  | encoding
  /-- Error `expecting '['` or `expecting ` brace. -/
  | expectOpen
  /-- Error `expecting '"'` at the start of a key. -/
  | expectQuote
  /-- Error `expecting ':'` after a key. -/
  | expectColon
  /-- Error `invalid value '...'` from `parseField`. -/
  | invalidValue
  /-- Error returned by `strconv.Unquote` on a malformed literal. -/
  | unquoteErr
  /-- Error `unexpected end of input`. -/
  | endOfInput
  /-- Panic inside `Object.Set` (empty key). -/
  | setPanic
  /-- Error `missing '['` or `missing ` brace from the entry points. -/
  | missingOpen
deriving DecidableEq

/-- States of the list parser loop (`stateVal` .. `stateValAfterString`). -/
inductive LSt where
  | val
  | valString
  | valEscape
  | valAfterString
deriving DecidableEq

/-- States of the object parser loop (`stateKeyStart` ..
`stateValAfterString`). -/
inductive OSt where
  | keyStart
  | key
  | keyEscape
  | afterKey
  | val
  | valString
  | valEscape
  | valAfterString
deriving DecidableEq

/-- The `unicode.IsSpace` test on the Latin-1 range (the Unicode space
characters beyond U+00A0 are omitted; no claim input contains them). -/
def goIsSpace (c : Char) : Bool :=
  c = ' ' || c = '\t' || c = '\n' || c.val = 11 || c.val = 12 || c.val = 13
    || c.val = 0x85 || c.val = 0xa0

/-- Map assignment `ego.val[name] = value`: overwrite the existing entry for
the key or append a new one. -/
def objSet : List (Str × Field) → Str → Field → List (Str × Field)
  | [], k, v => [(k, v)]
  | (k₀, v₀) :: tl, k, v =>
      if k₀ = k then (k₀, v) :: tl else (k₀, v₀) :: objSet tl k v

mutual

/-- Loop of `parseList` after the opening bracket: state `st`, input `cs`,
current `line`, list built so far `acc`, token buffer `val`, flag `inVal`.
One rune is consumed per iteration; the bodies of the four state branches
are restated as the equal `listStep*` functions below (theorems
`runList_val` and friends), which is the form the proofs use. -/
def runList (fuel : Nat) (st : LSt) (cs : Str) (line : Nat) (acc : List Field)
    (val : Str) (inVal : Bool) : Except PErr (List Field × Str) :=
  match fuel, cs with
  | _, [] => .error .endOfInput
  | 0, _ :: _ => .error .outOfFuel
  | f + 1, c :: rest =>
    match st with
    | .val =>
      if goIsSpace c then
        runList f .val rest (if c = '\n' then line + 1 else line) acc val inVal
      else if !inVal && c = '"' then runList f .valString rest line acc val inVal
      else if !inVal && c = braceOpen then
        match runObject f .keyStart rest line [] [] [] false with
        | .ok (o, rest') => runList f .val rest' line (acc ++ [.fobj o]) val inVal
        | .error e => .error e
      else if !inVal && c = '[' then
        match runList f .val rest line [] [] false with
        | .ok (l, rest') => runList f .val rest' line (acc ++ [.flist l]) val inVal
        | .error e => .error e
      else if c = ',' || c = ']' then
        if val ≠ [] then
          match parsePrimField val with
          | some fld =>
              if c = ']' then .ok (acc ++ [fld], rest)
              else runList f .val rest line (acc ++ [fld]) [] false
          | none => .error .invalidValue
        else if c = ']' then .ok (acc, rest)
        else runList f .val rest line acc val inVal
      else runList f .val rest line acc (val ++ [c]) true
    | .valString =>
      if c = '\\' then runList f .valEscape rest line acc val inVal
      else if c = '"' then
        match unquoteBody val with
        | some s => runList f .valAfterString rest line (acc ++ [.fstr s]) [] inVal
        | none => .error .unquoteErr
      else runList f .valString rest line acc (val ++ [c]) inVal
    | .valEscape => runList f .valString rest line acc (val ++ ['\\', c]) inVal
    | .valAfterString =>
      if c = ',' then runList f .val rest line acc val inVal
      else if c = ']' then .ok (acc, rest)
      else runList f .valAfterString rest line acc val inVal

/-- Loop of `parseObject` after the opening brace: object built so far `o`,
raw key buffer `key`, token buffer `val`. -/
def runObject (fuel : Nat) (st : OSt) (cs : Str) (line : Nat)
    (o : List (Str × Field)) (key : Str) (val : Str) (inVal : Bool) :
    Except PErr (List (Str × Field) × Str) :=
  match fuel, cs with
  | _, [] => .error .endOfInput
  | 0, _ :: _ => .error .outOfFuel
  | f + 1, c :: rest =>
    match st with
    | .keyStart =>
      if goIsSpace c then
        runObject f .keyStart rest (if c = '\n' then line + 1 else line) o key val inVal
      else if c = braceClose then .ok (o, rest)
      else if c = '"' then runObject f .key rest line o [] val inVal
      else .error .expectQuote
    | .key =>
      if c = '"' then runObject f .afterKey rest line o key val inVal
      else if c = '\\' then runObject f .keyEscape rest line o key val inVal
      else runObject f .key rest line o (key ++ [c]) val inVal
    | .keyEscape => runObject f .key rest line o (key ++ ['\\', c]) val inVal
    | .afterKey =>
      if goIsSpace c then
        runObject f .afterKey rest (if c = '\n' then line + 1 else line) o key val inVal
      else if c ≠ ':' then .error .expectColon
      else
        match unquoteBody key with
        | some k => runObject f .val rest line o k [] false
        | none => .error .unquoteErr
    | .val =>
      if goIsSpace c then
        runObject f .val rest (if c = '\n' then line + 1 else line) o key val inVal
      else if !inVal && c = '"' then runObject f .valString rest line o key val inVal
      else if !inVal && c = braceOpen then
        match runObject f .keyStart rest line [] [] [] false with
        | .ok (o', rest') =>
            if key = [] then .error .setPanic
            else runObject f .val rest' line (objSet o key (.fobj o')) key val inVal
        | .error e => .error e
      else if !inVal && c = '[' then
        match runList f .val rest line [] [] false with
        | .ok (l, rest') =>
            if key = [] then .error .setPanic
            else runObject f .val rest' line (objSet o key (.flist l)) key val inVal
        | .error e => .error e
      else if c = ',' || c = braceClose then
        if val ≠ [] then
          match parsePrimField val with
          | some fld =>
              if key = [] then .error .setPanic
              else if c = ',' then
                runObject f .keyStart rest line (objSet o key fld) key val inVal
              else .ok (objSet o key fld, rest)
          | none => .error .invalidValue
        else if c = ',' then runObject f .keyStart rest line o key val inVal
        else .ok (o, rest)
      else runObject f .val rest line o key (val ++ [c]) true
    | .valString =>
      if c = '\\' then runObject f .valEscape rest line o key val inVal
      else if c = '"' then
        match unquoteBody val with
        | some s =>
            if key = [] then .error .setPanic
            else runObject f .valAfterString rest line (objSet o key (.fstr s)) key val inVal
        | none => .error .unquoteErr
      else runObject f .valString rest line o key (val ++ [c]) inVal
    | .valEscape => runObject f .valString rest line o key (val ++ ['\\', c]) inVal
    | .valAfterString =>
      if c = ',' then runObject f .keyStart rest line o key val inVal
      else if c = braceClose then .ok (o, rest)
      else runObject f .valAfterString rest line o key val inVal

end

/-- The `stateVal` branch of `parseList`, restated as a function. -/
def listStepVal (f : Nat) (c : Char) (rest : Str) (line : Nat) (acc : List Field)
    (val : Str) (inVal : Bool) : Except PErr (List Field × Str) :=
  if goIsSpace c then
    runList f .val rest (if c = '\n' then line + 1 else line) acc val inVal
  else if !inVal && c = '"' then runList f .valString rest line acc val inVal
  else if !inVal && c = braceOpen then
    match runObject f .keyStart rest line [] [] [] false with
    | .ok (o, rest') => runList f .val rest' line (acc ++ [.fobj o]) val inVal
    | .error e => .error e
  else if !inVal && c = '[' then
    match runList f .val rest line [] [] false with
    | .ok (l, rest') => runList f .val rest' line (acc ++ [.flist l]) val inVal
    | .error e => .error e
  else if c = ',' || c = ']' then
    if val ≠ [] then
      match parsePrimField val with
      | some fld =>
          if c = ']' then .ok (acc ++ [fld], rest)
          else runList f .val rest line (acc ++ [fld]) [] false
      | none => .error .invalidValue
    else if c = ']' then .ok (acc, rest)
    else runList f .val rest line acc val inVal
  else runList f .val rest line acc (val ++ [c]) true

/-- The `stateValString` branch of `parseList`, restated as a function. -/
def listStepValString (f : Nat) (c : Char) (rest : Str) (line : Nat)
    (acc : List Field) (val : Str) (inVal : Bool) : Except PErr (List Field × Str) :=
  if c = '\\' then runList f .valEscape rest line acc val inVal
  else if c = '"' then
    match unquoteBody val with
    | some s => runList f .valAfterString rest line (acc ++ [.fstr s]) [] inVal
    | none => .error .unquoteErr
  else runList f .valString rest line acc (val ++ [c]) inVal

/-- The `stateValAfterString` branch of `parseList`, restated as a
function. -/
def listStepAfterString (f : Nat) (c : Char) (rest : Str) (line : Nat)
    (acc : List Field) (val : Str) (inVal : Bool) : Except PErr (List Field × Str) :=
  if c = ',' then runList f .val rest line acc val inVal
  else if c = ']' then .ok (acc, rest)
  else runList f .valAfterString rest line acc val inVal

/-- The `stateKeyStart` branch of `parseObject`, restated as a function. -/
def objStepKeyStart (f : Nat) (c : Char) (rest : Str) (line : Nat)
    (o : List (Str × Field)) (key : Str) (val : Str) (inVal : Bool) :
    Except PErr (List (Str × Field) × Str) :=
  if goIsSpace c then
    runObject f .keyStart rest (if c = '\n' then line + 1 else line) o key val inVal
  else if c = braceClose then .ok (o, rest)
  else if c = '"' then runObject f .key rest line o [] val inVal
  else .error .expectQuote

/-- The `stateKey` branch of `parseObject`, restated as a function. -/
def objStepKey (f : Nat) (c : Char) (rest : Str) (line : Nat)
    (o : List (Str × Field)) (key : Str) (val : Str) (inVal : Bool) :
    Except PErr (List (Str × Field) × Str) :=
  if c = '"' then runObject f .afterKey rest line o key val inVal
  else if c = '\\' then runObject f .keyEscape rest line o key val inVal
  else runObject f .key rest line o (key ++ [c]) val inVal

/-- The `stateAfterKey` branch of `parseObject`, restated as a function. -/
def objStepAfterKey (f : Nat) (c : Char) (rest : Str) (line : Nat)
    (o : List (Str × Field)) (key : Str) (val : Str) (inVal : Bool) :
    Except PErr (List (Str × Field) × Str) :=
  if goIsSpace c then
    runObject f .afterKey rest (if c = '\n' then line + 1 else line) o key val inVal
  else if c ≠ ':' then .error .expectColon
  else
    match unquoteBody key with
    | some k => runObject f .val rest line o k [] false
    | none => .error .unquoteErr

/-- The `stateVal` branch of `parseObject`, restated as a function. -/
def objStepVal (f : Nat) (c : Char) (rest : Str) (line : Nat)
    (o : List (Str × Field)) (key : Str) (val : Str) (inVal : Bool) :
    Except PErr (List (Str × Field) × Str) :=
  if goIsSpace c then
    runObject f .val rest (if c = '\n' then line + 1 else line) o key val inVal
  else if !inVal && c = '"' then runObject f .valString rest line o key val inVal
  else if !inVal && c = braceOpen then
    match runObject f .keyStart rest line [] [] [] false with
    | .ok (o', rest') =>
        if key = [] then .error .setPanic
        else runObject f .val rest' line (objSet o key (.fobj o')) key val inVal
    | .error e => .error e
  else if !inVal && c = '[' then
    match runList f .val rest line [] [] false with
    | .ok (l, rest') =>
        if key = [] then .error .setPanic
        else runObject f .val rest' line (objSet o key (.flist l)) key val inVal
    | .error e => .error e
  else if c = ',' || c = braceClose then
    if val ≠ [] then
      match parsePrimField val with
      | some fld =>
          if key = [] then .error .setPanic
          else if c = ',' then
            runObject f .keyStart rest line (objSet o key fld) key val inVal
          else .ok (objSet o key fld, rest)
      | none => .error .invalidValue
    else if c = ',' then runObject f .keyStart rest line o key val inVal
    else .ok (o, rest)
  else runObject f .val rest line o key (val ++ [c]) true

/-- The `stateValString` branch of `parseObject`, restated as a function. -/
def objStepValString (f : Nat) (c : Char) (rest : Str) (line : Nat)
    (o : List (Str × Field)) (key : Str) (val : Str) (inVal : Bool) :
    Except PErr (List (Str × Field) × Str) :=
  if c = '\\' then runObject f .valEscape rest line o key val inVal
  else if c = '"' then
    match unquoteBody val with
    | some s =>
        if key = [] then .error .setPanic
        else runObject f .valAfterString rest line (objSet o key (.fstr s)) key val inVal
    | none => .error .unquoteErr
  else runObject f .valString rest line o key (val ++ [c]) inVal

/-- The `stateValAfterString` branch of `parseObject`, restated as a
function. -/
def objStepAfterString (f : Nat) (c : Char) (rest : Str) (line : Nat)
    (o : List (Str × Field)) (key : Str) (val : Str) (inVal : Bool) :
    Except PErr (List (Str × Field) × Str) :=
  if c = ',' then runObject f .keyStart rest line o key val inVal
  else if c = braceClose then .ok (o, rest)
  else runObject f .valAfterString rest line o key val inVal

/-! Step equations of the list loop, one per state, each definitional. -/

theorem runList_nil (fuel : Nat) (st : LSt) (line : Nat) (acc : List Field)
    (val : Str) (inVal : Bool) :
    runList fuel st [] line acc val inVal = .error .endOfInput := by
  cases fuel <;> rfl

theorem runList_zero (st : LSt) (c : Char) (cs : Str) (line : Nat)
    (acc : List Field) (val : Str) (inVal : Bool) :
    runList 0 st (c :: cs) line acc val inVal = .error .outOfFuel := rfl

theorem runList_val (f : Nat) (c : Char) (rest : Str) (line : Nat)
    (acc : List Field) (val : Str) (inVal : Bool) :
    runList (f + 1) .val (c :: rest) line acc val inVal
      = listStepVal f c rest line acc val inVal := rfl

theorem runList_valString (f : Nat) (c : Char) (rest : Str) (line : Nat)
    (acc : List Field) (val : Str) (inVal : Bool) :
    runList (f + 1) .valString (c :: rest) line acc val inVal
      = listStepValString f c rest line acc val inVal := rfl

theorem runList_valEscape (f : Nat) (c : Char) (rest : Str) (line : Nat)
    (acc : List Field) (val : Str) (inVal : Bool) :
    runList (f + 1) .valEscape (c :: rest) line acc val inVal
      = runList f .valString rest line acc (val ++ ['\\', c]) inVal := rfl

theorem runList_afterString (f : Nat) (c : Char) (rest : Str) (line : Nat)
    (acc : List Field) (val : Str) (inVal : Bool) :
    runList (f + 1) .valAfterString (c :: rest) line acc val inVal
      = listStepAfterString f c rest line acc val inVal := rfl

/-! Step equations of the object loop. -/

theorem runObject_nil (fuel : Nat) (st : OSt) (line : Nat)
    (o : List (Str × Field)) (key val : Str) (inVal : Bool) :
    runObject fuel st [] line o key val inVal = .error .endOfInput := by
  cases fuel <;> rfl

theorem runObject_zero (st : OSt) (c : Char) (cs : Str) (line : Nat)
    (o : List (Str × Field)) (key val : Str) (inVal : Bool) :
    runObject 0 st (c :: cs) line o key val inVal = .error .outOfFuel := rfl

theorem runObject_keyStart (f : Nat) (c : Char) (rest : Str) (line : Nat)
    (o : List (Str × Field)) (key val : Str) (inVal : Bool) :
    runObject (f + 1) .keyStart (c :: rest) line o key val inVal
      = objStepKeyStart f c rest line o key val inVal := rfl

theorem runObject_key (f : Nat) (c : Char) (rest : Str) (line : Nat)
    (o : List (Str × Field)) (key val : Str) (inVal : Bool) :
    runObject (f + 1) .key (c :: rest) line o key val inVal
      = objStepKey f c rest line o key val inVal := rfl

theorem runObject_keyEscape (f : Nat) (c : Char) (rest : Str) (line : Nat)
    (o : List (Str × Field)) (key val : Str) (inVal : Bool) :
    runObject (f + 1) .keyEscape (c :: rest) line o key val inVal
      = runObject f .key rest line o (key ++ ['\\', c]) val inVal := rfl

theorem runObject_afterKey (f : Nat) (c : Char) (rest : Str) (line : Nat)
    (o : List (Str × Field)) (key val : Str) (inVal : Bool) :
    runObject (f + 1) .afterKey (c :: rest) line o key val inVal
      = objStepAfterKey f c rest line o key val inVal := rfl

theorem runObject_val (f : Nat) (c : Char) (rest : Str) (line : Nat)
    (o : List (Str × Field)) (key val : Str) (inVal : Bool) :
    runObject (f + 1) .val (c :: rest) line o key val inVal
      = objStepVal f c rest line o key val inVal := rfl

theorem runObject_valString (f : Nat) (c : Char) (rest : Str) (line : Nat)
    (o : List (Str × Field)) (key val : Str) (inVal : Bool) :
    runObject (f + 1) .valString (c :: rest) line o key val inVal
      = objStepValString f c rest line o key val inVal := rfl

theorem runObject_valEscape (f : Nat) (c : Char) (rest : Str) (line : Nat)
    (o : List (Str × Field)) (key val : Str) (inVal : Bool) :
    runObject (f + 1) .valEscape (c :: rest) line o key val inVal
      = runObject f .valString rest line o key (val ++ ['\\', c]) inVal := rfl

theorem runObject_afterString (f : Nat) (c : Char) (rest : Str) (line : Nat)
    (o : List (Str × Field)) (key val : Str) (inVal : Bool) :
    runObject (f + 1) .valAfterString (c :: rest) line o key val inVal
      = objStepAfterString f c rest line o key val inVal := rfl

/-- Body of `parseList`: the `stateStart` iteration (demanding an opening
bracket) followed by the loop. -/
def parseListF (fuel : Nat) (cs : Str) (line : Nat) :
    Except PErr (List Field × Str) :=
  match cs with
  | [] => .error .endOfInput
  | c :: rest =>
      if c ≠ '[' then .error .expectOpen
      else runList fuel .val rest line [] [] false

/-- Body of `parseObject`. -/
def parseObjectF (fuel : Nat) (cs : Str) (line : Nat) :
    Except PErr (List (Str × Field) × Str) :=
  match cs with
  | [] => .error .endOfInput
  | c :: rest =>
      if c ≠ braceOpen then .error .expectOpen
      else runObject fuel .keyStart rest line [] [] [] false

/-- The exported `ParseList`: locate the first opening bracket, count the
newlines before it for the starting line, parse from there. -/
def goParseList (s : Str) : Except PErr (List Field) :=
  match s.findIdx? (· = '[') with
  | none => .error .missingOpen
  | some i =>
      (parseListF ((s.drop i).length + 1) (s.drop i) ((s.take i).count '\n' + 1)).map
        Prod.fst

/-- The exported `ParseObject`. -/
def goParseObject (s : Str) : Except PErr (List (Str × Field)) :=
  match s.findIdx? (· = braceOpen) with
  | none => .error .missingOpen
  | some i =>
      (parseObjectF ((s.drop i).length + 1) (s.drop i) ((s.take i).count '\n' + 1)).map
        Prod.fst

/-! ## Container operations (`list_impl.go`, `object_impl.go`) -/

/-- Panic sites of the container operations, one constructor per distinct
panic. -/
inductive Panic where
  /-- Runtime index-out-of-range panic (indexing a slice or string out of
  bounds, as `ego.val[0]` on an empty list or `tf[0]` on an empty path). -/
  | runtimeIndex
  /-- Library panic `index ... out of range with count ...`. -/
  | indexOutOfRange
  /-- Type-assertion panic of a typed getter (`item is not an object`, ...). -/
  | typeMismatch
  /-- Panic `Unknown field type.` in `MapObject.TypeOf`. -/
  | unknownFieldType
  /-- Panic of `Sort` when the first element is not a string, int or float. -/
  | sortUnsupported
  /-- Panic `Object does not have a field ...`. -/
  | keyNotFound
  /-- Panic `... is not a valid tree form`. -/
  | invalidTreeForm
  /-- Panic `... cannot be converted to int` in the tree-form resolver. -/
  | notConvertible
  /-- Panic `Object key has to be non-empty string.` in `Set`. -/
  | invalidKey
deriving DecidableEq

/-- Variant tag of a stored field, as the type switches of `TypeOf`
compute it. -/
def fieldType : Field → GoType
  | .fnil => .tnil
  | .fstr _ => .tstring
  | .fbool _ => .tbool
  | .fint _ => .tint
  | .ffloat _ => .tfloat
  | .fobj _ => .tobject
  | .flist _ => .tlist

/-- The `list.TypeOf` method: bounds-checked; out of range gives
`TypeUndefined`, in range the variant tag. -/
def listTypeOf (l : List Field) (i : Int) : GoType :=
  if 0 ≤ i ∧ i < l.length then
    match l[i.toNat]? with
    | some f => fieldType f
    | none => .undefined
  else .undefined

/-- The `MapObject.TypeOf` method: a type switch on `ego.val[key]` with no
existence check, so a missing key yields the `nil` interface, falls to the
`default` case and panics `Unknown field type.`. -/
def mapObjectTypeOf (o : List (Str × Field)) (k : Str) : Except Panic GoType :=
  match lookupObj o k with
  | some f => .ok (fieldType f)
  | none => .error .unknownFieldType

/-- The `list.Get` method: bounds-checked read (the returned Go `any` is in
bijection with the stored field; the model returns the field). -/
def listGet (l : List Field) (i : Int) : Except Panic Field :=
  if i < 0 then .error .indexOutOfRange
  else
    match l[i.toNat]? with
    | some f => .ok f
    | none => .error .indexOutOfRange

/-- The `list.GetObject` typed getter. -/
def listGetObject (l : List Field) (i : Int) : Except Panic (List (Str × Field)) :=
  match listGet l i with
  | .ok (.fobj o) => .ok o
  | .ok _ => .error .typeMismatch
  | .error e => .error e

/-- The `list.GetList` typed getter. -/
def listGetList (l : List Field) (i : Int) : Except Panic (List Field) :=
  match listGet l i with
  | .ok (.flist l') => .ok l'
  | .ok _ => .error .typeMismatch
  | .error e => .error e

/-- The `MapObject.Get` method: panics `keyNotFound` on a missing key. -/
def objGet (o : List (Str × Field)) (k : Str) : Except Panic Field :=
  match lookupObj o k with
  | some f => .ok f
  | none => .error .keyNotFound

/-- The `MapObject.GetObject` typed getter. -/
def objGetObject (o : List (Str × Field)) (k : Str) :
    Except Panic (List (Str × Field)) :=
  match objGet o k with
  | .ok (.fobj o') => .ok o'
  | .ok _ => .error .typeMismatch
  | .error e => .error e

/-- The `MapObject.GetList` typed getter. -/
def objGetList (o : List (Str × Field)) (k : Str) : Except Panic (List Field) :=
  match objGet o k with
  | .ok (.flist l) => .ok l
  | .ok _ => .error .typeMismatch
  | .error e => .error e

/-- The `MapObject.KeyExists` method. -/
def keyExists (o : List (Str × Field)) (k : Str) : Bool :=
  (lookupObj o k).isSome

/-- One key-value pair of `MapObject.Set`: a key must be a non-empty
string. -/
def objSetChecked (o : List (Str × Field)) (k : Str) (v : Field) :
    Except Panic (List (Str × Field)) :=
  if k = [] then .error .invalidKey else .ok (objSet o k v)

/-- The `list.Replace` method: valid for `0 <= index < count`. -/
def listReplace (l : List Field) (i : Int) (v : Field) :
    Except Panic (List Field) :=
  if i < 0 ∨ l.length ≤ i then .error .indexOutOfRange
  else .ok (l.set i.toNat v)

/-- The `list.Insert` method: valid for `0 <= index <= count`, appending at
`count`. -/
def listInsert (l : List Field) (i : Int) (v : Field) :
    Except Panic (List Field) :=
  if i < 0 ∨ l.length < i then .error .indexOutOfRange
  else if i = l.length then .ok (l ++ [v])
  else .ok (l.insertIdx i.toNat v)

/-- The `list.StringSlice` method: collects the string elements, silently
skipping elements of any other variant. -/
def stringSlice (l : List Field) : List Str :=
  l.filterMap fun f => match f with | .fstr s => some s | _ => none

/-- The `list.IntSlice` method: collects the int elements, skipping the
rest. -/
def intSlice (l : List Field) : List Int :=
  l.filterMap fun f => match f with | .fint n => some n | _ => none

/-- The `list.FloatSlice` method: collects the float elements, skipping the
rest. -/
def floatSlice (l : List Field) : List Dec :=
  l.filterMap fun f => match f with | .ffloat d => some d | _ => none

/-- Lexicographic order of Go strings (bytewise in Go; on valid UTF-8 the
byte order equals the code-point order used here). -/
def goStrLe : Str → Str → Bool
  | [], _ => true
  | _ :: _, [] => false
  | a :: as, b :: bs =>
      if a.toNat < b.toNat then true
      else if b.toNat < a.toNat then false
      else goStrLe as bs

/-- The `list.Sort` method: inspects `ego.val[0]` before anything else (a
runtime index panic on an empty list), then dispatches on the variant of the
first element; the matching-variant elements are extracted (others silently
dropped), sorted ascending, and replace the whole contents; a first element
of any other variant panics. -/
def listSort (l : List Field) : Except Panic (List Field) :=
  match l with
  | [] => .error .runtimeIndex
  | f :: _ =>
      match f with
      | .fstr _ =>
          .ok (((stringSlice l).insertionSort fun a b => goStrLe a b).map .fstr)
      | .fint _ =>
          .ok (((intSlice l).insertionSort fun a b => a ≤ b).map .fint)
      | .ffloat _ =>
          .ok (((floatSlice l).insertionSort fun a b => Dec.dle a b).map .ffloat)
      | _ => .error .sortUnsupported

/-- Go constant `math.MaxInt` on a 64-bit platform. -/
def goMaxInt : Int := 2 ^ 63 - 1

/-- Go constant `math.MinInt` on a 64-bit platform. -/
def goMinInt : Int := -(2 ^ 63)

/-- The `list.IntSum` method: adds the int elements, silently skipping the
rest (machine overflow wraps in Go; the claims quantified here stay in
range). -/
def intSum (l : List Field) : Int :=
  l.foldl (fun r f => match f with | .fint n => r + n | _ => r) 0

/-- The `list.IntProd` method: multiplies the int elements, skipping the
rest. -/
def intProd (l : List Field) : Int :=
  l.foldl (fun r f => match f with | .fint n => r * n | _ => r) 1

/-- Presence of at least one int element (the `present` flag that the
reduction closure of `IntMin`/`IntMax` sets on every invocation). -/
def anyInt (l : List Field) : Bool :=
  l.any fun f => match f with | .fint _ => true | _ => false

/-- The `list.IntMin` method: folds minimum over the int elements starting
from `math.MaxInt`, and returns `0` when no int element is present. -/
def intMin (l : List Field) : Int :=
  let m := l.foldl
    (fun r f => match f with | .fint n => if n < r then n else r | _ => r) goMaxInt
  if anyInt l then m else 0

/-- The `list.IntMax` method: folds maximum over the int elements starting
from `math.MinInt`, and returns `0` when no int element is present. -/
def intMax (l : List Field) : Int :=
  let m := l.foldl
    (fun r f => match f with | .fint n => if r < n then n else r | _ => r) goMinInt
  if anyInt l then m else 0

/-! ## Construction from native values (`parseVal`) -/

/-- Native Go values convertible by `parseVal`; the slice and map cases
recurse through `Add`/`Set` with the same conversion and are represented by
the already-converted payloads. -/
inductive Native where
  | nstring (s : Str)
  | nbool (b : Bool)
  | nint (n : Int)
  | nint64 (n : Int)
  | nint32 (n : Int)
  | nint16 (n : Int)
  | nint8 (n : Int)
  | nuint64 (u : Nat)
  | nuint32 (u : Nat)
  | nuint16 (u : Nat)
  | nuint8 (u : Nat)
  | nfloat64 (d : Dec)
  | nfloat32 (d : Dec)
  | nnil
  | nobject (o : List (Str × Field))
  | nlist (l : List Field)

/-- The Go conversion `int(v)` for `v : uint64` on a 64-bit platform:
reinterpretation of the bits, so values at or above `2^63` wrap around by
`2^64` into the negatives (defined behaviour of the Go language, no check,
no failure). -/
def intOfUint64 (u : Nat) : Int :=
  if u < 2 ^ 63 then (u : Int) else (u : Int) - 2 ^ 64

/-- The `parseVal` classifier of `anytype.go`: every numeric native subtype
normalizes to the Int or Float variant; `uint64` goes through the plain
`int(v)` cast.  The narrower conversions (`int64`..`int8`, `uint32`..)
cannot wrap because the Go `int` is 64 bits wide. -/
def parseVal : Native → Field
  | .nstring s => .fstr s
  | .nbool b => .fbool b
  | .nint n => .fint n
  | .nint64 n => .fint n
  | .nint32 n => .fint n
  | .nint16 n => .fint n
  | .nint8 n => .fint n
  | .nuint64 u => .fint (intOfUint64 u)
  | .nuint32 u => .fint (u : Int)
  | .nuint16 u => .fint (u : Int)
  | .nuint8 u => .fint (u : Int)
  | .nfloat64 d => .ffloat d
  | .nfloat32 d => .ffloat d
  | .nnil => .fnil
  | .nobject o => .fobj o
  | .nlist l => .flist l

/-! ## Tree-form path resolver (`GetTF`, `SetTF`)

Both containers split the path after its leading separator at whichever of
the next dot or hash comes first; `strings.Index` is modelled by an `Int`
valued index (`-1` for absent) so the Go conditions transcribe verbatim. -/

/-- Position of the first occurrence of `c`, `-1` when absent
(`strings.Index`). -/
def idxOf (c : Char) (s : Str) : Int :=
  match s.findIdx? (· = c) with
  | some i => (i : Int)
  | none => -1

mutual

/-- The `MapObject.SetTF` method: descend (auto-vivifying a missing key
with an empty object or list; an existing key of the wrong variant makes
the typed getter panic), or `Set` on the final segment. -/
def objSetTF (o : List (Str × Field)) (tf : Str) (v : Field) :
    Except Panic (List (Str × Field)) :=
  match tf with
  | [] => .error .runtimeIndex
  | c :: rest =>
    if c ≠ '.' ∨ rest = [] then .error .invalidTreeForm
    else
      let dot := idxOf '.' rest
      let hash := idxOf '#' rest
      if dot > 0 ∧ (hash < 0 ∨ dot < hash) then
        let key := rest.take dot.toNat
        let rem := rest.drop dot.toNat
        if keyExists o key then
          match objGetObject o key with
          | .ok child =>
              match objSetTF child rem v with
              | .ok child' => objSetChecked o key (.fobj child')
              | .error e => .error e
          | .error e => .error e
        else
          match objSetTF [] rem v with
          | .ok child' => objSetChecked o key (.fobj child')
          | .error e => .error e
      else if hash > 0 ∧ (dot < 0 ∨ hash < dot) then
        let key := rest.take hash.toNat
        let rem := rest.drop hash.toNat
        if keyExists o key then
          match objGetList o key with
          | .ok child =>
              match listSetTF child rem v with
              | .ok child' => objSetChecked o key (.flist child')
              | .error e => .error e
          | .error e => .error e
        else
          match listSetTF [] rem v with
          | .ok child' => objSetChecked o key (.flist child')
          | .error e => .error e
      else objSetChecked o rest v
termination_by tf.length
decreasing_by all_goals simp; omega

/-- The `list.SetTF` method: the version under proof vivifies a missing
index equal to the count by `Add` and replaces a wrong-variant slot by a
fresh empty container; the final segment is `Add` at the count or
`Replace`. -/
def listSetTF (l : List Field) (tf : Str) (v : Field) :
    Except Panic (List Field) :=
  match tf with
  | [] => .error .invalidTreeForm
  | c :: rest =>
    if rest = [] ∨ c ≠ '#' then .error .invalidTreeForm
    else
      let dot := idxOf '.' rest
      let hash := idxOf '#' rest
      if dot > 0 ∧ (hash < 0 ∨ dot < hash) then
        match parseIntGo (rest.take dot.toNat) with
        | none => .error .notConvertible
        | some index =>
          let rem := rest.drop dot.toNat
          if index = l.length then
            match objSetTF [] rem v with
            | .ok child' => .ok (l ++ [.fobj child'])
            | .error e => .error e
          else if listTypeOf l index = .tobject then
            match listGetObject l index with
            | .ok child =>
                match objSetTF child rem v with
                | .ok child' => listReplace l index (.fobj child')
                | .error e => .error e
            | .error e => .error e
          else
            match listReplace l index (.fobj []) with
            | .ok l' =>
                match objSetTF [] rem v with
                | .ok child' => listReplace l' index (.fobj child')
                | .error e => .error e
            | .error e => .error e
      else if hash > 0 ∧ (dot < 0 ∨ hash < dot) then
        match parseIntGo (rest.take hash.toNat) with
        | none => .error .notConvertible
        | some index =>
          let rem := rest.drop hash.toNat
          if index = l.length then
            match listSetTF [] rem v with
            | .ok child' => .ok (l ++ [.flist child'])
            | .error e => .error e
          else if listTypeOf l index = .tlist then
            match listGetList l index with
            | .ok child =>
                match listSetTF child rem v with
                | .ok child' => listReplace l index (.flist child')
                | .error e => .error e
            | .error e => .error e
          else
            match listReplace l index (.flist []) with
            | .ok l' =>
                match listSetTF [] rem v with
                | .ok child' => listReplace l' index (.flist child')
                | .error e => .error e
            | .error e => .error e
      else
        match parseIntGo rest with
        | none => .error .notConvertible
        | some index =>
            if index = l.length then .ok (l ++ [v])
            else listReplace l index v
termination_by tf.length
decreasing_by all_goals simp; omega

end

mutual

/-- The `MapObject.GetTF` method: descend through the typed getters (which
panic on a missing key or a wrong variant), `Get` on the final segment. -/
def objGetTF (o : List (Str × Field)) (tf : Str) : Except Panic Field :=
  match tf with
  | [] => .error .runtimeIndex
  | c :: rest =>
    if c ≠ '.' ∨ rest = [] then .error .invalidTreeForm
    else
      let dot := idxOf '.' rest
      let hash := idxOf '#' rest
      if dot > 0 ∧ (hash < 0 ∨ dot < hash) then
        match objGetObject o (rest.take dot.toNat) with
        | .ok child => objGetTF child (rest.drop dot.toNat)
        | .error e => .error e
      else if hash > 0 ∧ (dot < 0 ∨ hash < dot) then
        match objGetList o (rest.take hash.toNat) with
        | .ok child => listGetTF child (rest.drop hash.toNat)
        | .error e => .error e
      else objGet o rest
termination_by tf.length
decreasing_by all_goals simp; omega

/-- The `list.GetTF` method. -/
def listGetTF (l : List Field) (tf : Str) : Except Panic Field :=
  match tf with
  | [] => .error .invalidTreeForm
  | c :: rest =>
    if rest = [] ∨ c ≠ '#' then .error .invalidTreeForm
    else
      let dot := idxOf '.' rest
      let hash := idxOf '#' rest
      if dot > 0 ∧ (hash < 0 ∨ dot < hash) then
        match parseIntGo (rest.take dot.toNat) with
        | none => .error .notConvertible
        | some index =>
            match listGetObject l index with
            | .ok child => objGetTF child (rest.drop dot.toNat)
            | .error e => .error e
      else if hash > 0 ∧ (dot < 0 ∨ hash < dot) then
        match parseIntGo (rest.take hash.toNat) with
        | none => .error .notConvertible
        | some index =>
            match listGetList l index with
            | .ok child => listGetTF child (rest.drop hash.toNat)
            | .error e => .error e
      else
        match parseIntGo rest with
        | none => .error .notConvertible
        | some index => listGet l index
termination_by tf.length
decreasing_by all_goals simp; omega

end

/-! ## Byte-level model of the parser loops

The Go parser iterates over BYTES, decoding one rune per step with
`utf8.DecodeRuneInString` and guarding `size == 0` with the error
`not an UTF-8 encoding`.  That guard is what the invalid-encoding claim is
about, so the decoding loop is modelled here at byte level, faithfully to the
documented contract of `DecodeRuneInString`: the empty string gives
`(RuneError, 0)`; an invalid encoding gives `(RuneError, 1)`; a valid
encoding gives the rune and its size. -/

/-- A continuation byte of UTF-8. -/
def contByte (b : Nat) : Bool := 0x80 ≤ b && b ≤ 0xbf

/-- The model of `utf8.DecodeRuneInString` on a byte list: code point and
size, with `U+FFFD` and size 1 for invalid input, size 0 only for empty
input. -/
def decodeRune : List Nat → Nat × Nat
  | [] => (0xfffd, 0)
  | b₀ :: rest =>
    if b₀ < 0x80 then (b₀, 1)
    else if 0xc2 ≤ b₀ ∧ b₀ ≤ 0xdf then
      match rest with
      | b₁ :: _ =>
          if contByte b₁ then ((b₀ - 0xc0) * 64 + (b₁ - 0x80), 2) else (0xfffd, 1)
      | [] => (0xfffd, 1)
    else if 0xe0 ≤ b₀ ∧ b₀ ≤ 0xef then
      match rest with
      | b₁ :: b₂ :: _ =>
          let okB₁ :=
            if b₀ = 0xe0 then 0xa0 ≤ b₁ && b₁ ≤ 0xbf
            else if b₀ = 0xed then 0x80 ≤ b₁ && b₁ ≤ 0x9f
            else contByte b₁
          if okB₁ then
            if contByte b₂ then
              ((b₀ - 0xe0) * 4096 + (b₁ - 0x80) * 64 + (b₂ - 0x80), 3)
            else (0xfffd, 1)
          else (0xfffd, 1)
      | [b₁] =>
          let okB₁ :=
            if b₀ = 0xe0 then 0xa0 ≤ b₁ && b₁ ≤ 0xbf
            else if b₀ = 0xed then 0x80 ≤ b₁ && b₁ ≤ 0x9f
            else contByte b₁
          if okB₁ then (0xfffd, 1) else (0xfffd, 1)
      | [] => (0xfffd, 1)
    else if 0xf0 ≤ b₀ ∧ b₀ ≤ 0xf4 then
      match rest with
      | b₁ :: b₂ :: b₃ :: _ =>
          let okB₁ :=
            if b₀ = 0xf0 then 0x90 ≤ b₁ && b₁ ≤ 0xbf
            else if b₀ = 0xf4 then 0x80 ≤ b₁ && b₁ ≤ 0x8f
            else contByte b₁
          if okB₁ then
            if contByte b₂ ∧ contByte b₃ then
              ((b₀ - 0xf0) * 262144 + (b₁ - 0x80) * 4096 + (b₂ - 0x80) * 64
                + (b₃ - 0x80), 4)
            else (0xfffd, 1)
          else (0xfffd, 1)
      | _ => (0xfffd, 1)
    else (0xfffd, 1)

mutual

/-- Byte-level mirror of `runList`: decode one rune, check the `size == 0`
guard exactly as `parser.go` does, then dispatch as the character-level loop
does and advance by the decoded size. -/
def runListB (fuel : Nat) (st : LSt) (cs : List Nat) (line : Nat)
    (acc : List Field) (val : Str) (inVal : Bool) :
    Except PErr (List Field × List Nat) :=
  match fuel, cs with
  | _, [] => .error .endOfInput
  | 0, _ :: _ => .error .outOfFuel
  | f + 1, b :: brest =>
    let pr := decodeRune (b :: brest)
    if pr.2 = 0 then .error .encoding
    else
      let c := Char.ofNat pr.1
      let rest := (b :: brest).drop pr.2
      match st with
      | .val =>
        if goIsSpace c then
          runListB f .val rest (if c = '\n' then line + 1 else line) acc val inVal
        else if !inVal && c = '"' then runListB f .valString rest line acc val inVal
        else if !inVal && c = braceOpen then
          match runObjectB f .keyStart rest line [] [] [] false with
          | .ok (o, rest') => runListB f .val rest' line (acc ++ [.fobj o]) val inVal
          | .error e => .error e
        else if !inVal && c = '[' then
          match runListB f .val rest line [] [] false with
          | .ok (l, rest') => runListB f .val rest' line (acc ++ [.flist l]) val inVal
          | .error e => .error e
        else if c = ',' || c = ']' then
          if val ≠ [] then
            match parsePrimField val with
            | some fld =>
                if c = ']' then .ok (acc ++ [fld], rest)
                else runListB f .val rest line (acc ++ [fld]) [] false
            | none => .error .invalidValue
          else if c = ']' then .ok (acc, rest)
          else runListB f .val rest line acc val inVal
        else runListB f .val rest line acc (val ++ [c]) true
      | .valString =>
        if c = '\\' then runListB f .valEscape rest line acc val inVal
        else if c = '"' then
          match unquoteBody val with
          | some s => runListB f .valAfterString rest line (acc ++ [.fstr s]) [] inVal
          | none => .error .unquoteErr
        else runListB f .valString rest line acc (val ++ [c]) inVal
      | .valEscape => runListB f .valString rest line acc (val ++ ['\\', c]) inVal
      | .valAfterString =>
        if c = ',' then runListB f .val rest line acc val inVal
        else if c = ']' then .ok (acc, rest)
        else runListB f .valAfterString rest line acc val inVal

/-- Byte-level mirror of `runObject`. -/
def runObjectB (fuel : Nat) (st : OSt) (cs : List Nat) (line : Nat)
    (o : List (Str × Field)) (key : Str) (val : Str) (inVal : Bool) :
    Except PErr (List (Str × Field) × List Nat) :=
  match fuel, cs with
  | _, [] => .error .endOfInput
  | 0, _ :: _ => .error .outOfFuel
  | f + 1, b :: brest =>
    let pr := decodeRune (b :: brest)
    if pr.2 = 0 then .error .encoding
    else
      let c := Char.ofNat pr.1
      let rest := (b :: brest).drop pr.2
      match st with
      | .keyStart =>
        if goIsSpace c then
          runObjectB f .keyStart rest (if c = '\n' then line + 1 else line) o key val inVal
        else if c = braceClose then .ok (o, rest)
        else if c = '"' then runObjectB f .key rest line o [] val inVal
        else .error .expectQuote
      | .key =>
        if c = '"' then runObjectB f .afterKey rest line o key val inVal
        else if c = '\\' then runObjectB f .keyEscape rest line o key val inVal
        else runObjectB f .key rest line o (key ++ [c]) val inVal
      | .keyEscape => runObjectB f .key rest line o (key ++ ['\\', c]) val inVal
      | .afterKey =>
        if goIsSpace c then
          runObjectB f .afterKey rest (if c = '\n' then line + 1 else line) o key val inVal
        else if c ≠ ':' then .error .expectColon
        else
          match unquoteBody key with
          | some k => runObjectB f .val rest line o k [] false
          | none => .error .unquoteErr
      | .val =>
        if goIsSpace c then
          runObjectB f .val rest (if c = '\n' then line + 1 else line) o key val inVal
        else if !inVal && c = '"' then runObjectB f .valString rest line o key val inVal
        else if !inVal && c = braceOpen then
          match runObjectB f .keyStart rest line [] [] [] false with
          | .ok (o', rest') =>
              if key = [] then .error .setPanic
              else runObjectB f .val rest' line (objSet o key (.fobj o')) key val inVal
          | .error e => .error e
        else if !inVal && c = '[' then
          match runListB f .val rest line [] [] false with
          | .ok (l, rest') =>
              if key = [] then .error .setPanic
              else runObjectB f .val rest' line (objSet o key (.flist l)) key val inVal
          | .error e => .error e
        else if c = ',' || c = braceClose then
          if val ≠ [] then
            match parsePrimField val with
            | some fld =>
                if key = [] then .error .setPanic
                else if c = ',' then
                  runObjectB f .keyStart rest line (objSet o key fld) key val inVal
                else .ok (objSet o key fld, rest)
            | none => .error .invalidValue
          else if c = ',' then runObjectB f .keyStart rest line o key val inVal
          else .ok (o, rest)
        else runObjectB f .val rest line o key (val ++ [c]) true
      | .valString =>
        if c = '\\' then runObjectB f .valEscape rest line o key val inVal
        else if c = '"' then
          match unquoteBody val with
          | some s =>
              if key = [] then .error .setPanic
              else runObjectB f .valAfterString rest line (objSet o key (.fstr s)) key val inVal
          | none => .error .unquoteErr
        else runObjectB f .valString rest line o key (val ++ [c]) inVal
      | .valEscape => runObjectB f .valString rest line o key (val ++ ['\\', c]) inVal
      | .valAfterString =>
        if c = ',' then runObjectB f .keyStart rest line o key val inVal
        else if c = braceClose then .ok (o, rest)
        else runObjectB f .valAfterString rest line o key val inVal

end

/-- Byte-level `parseList` body (the opening bracket is one byte). -/
def parseListBF (fuel : Nat) (cs : List Nat) (line : Nat) :
    Except PErr (List Field × List Nat) :=
  match cs with
  | [] => .error .endOfInput
  | b :: rest =>
      if b ≠ 0x5b then .error .expectOpen
      else runListB fuel .val rest line [] [] false

/-- Byte-level `ParseList`: locate the first opening-bracket byte, count
newline bytes before it, parse from there. -/
def goParseListBytes (s : List Nat) : Except PErr (List Field) :=
  match s.findIdx? (· = 0x5b) with
  | none => .error .missingOpen
  | some i =>
      (parseListBF ((s.drop i).length + 1) (s.drop i) ((s.take i).count 0x0a + 1)).map
        Prod.fst

/-- Byte-level `parseObject` body. -/
def parseObjectBF (fuel : Nat) (cs : List Nat) (line : Nat) :
    Except PErr (List (Str × Field) × List Nat) :=
  match cs with
  | [] => .error .endOfInput
  | b :: rest =>
      if b ≠ 0x7b then .error .expectOpen
      else runObjectB fuel .keyStart rest line [] [] [] false

/-- Byte-level `ParseObject`. -/
def goParseObjectBytes (s : List Nat) : Except PErr (List (Str × Field)) :=
  match s.findIdx? (· = 0x7b) with
  | none => .error .missingOpen
  | some i =>
      (parseObjectBF ((s.drop i).length + 1) (s.drop i) ((s.take i).count 0x0a + 1)).map
        Prod.fst

/-! ## Supporting lemmas: decimal values, orders, folds -/

/-- Rational value denoted by a decimal pair. -/
def valQ (d : Dec) : ℚ := (d.m : ℚ) * 10 ^ d.e

theorem valQ_eq_scaled (a : Dec) (lo : Int) (h : lo ≤ a.e) :
    valQ a = ((a.m * 10 ^ (a.e - lo).toNat : Int) : ℚ) * 10 ^ lo := by
  simp only [valQ]
  push_cast
  rw [mul_assoc, ← zpow_natCast (10 : ℚ), Int.toNat_of_nonneg (by omega),
    ← zpow_add₀ (by norm_num : (10:ℚ) ≠ 0)]
  ring_nf

/-- The boolean value order on decimals decides the rational order. -/
theorem dle_iff (a b : Dec) : Dec.dle a b = true ↔ valQ a ≤ valQ b := by
  rw [valQ_eq_scaled a (min a.e b.e) (min_le_left _ _),
      valQ_eq_scaled b (min a.e b.e) (min_le_right _ _),
      mul_le_mul_right (by positivity : (0:ℚ) < 10 ^ (min a.e b.e)), Int.cast_le]
  simp [Dec.dle, Dec.scaled]

theorem dlt_iff (a b : Dec) : Dec.dlt a b = true ↔ valQ a < valQ b := by
  rw [valQ_eq_scaled a (min a.e b.e) (min_le_left _ _),
      valQ_eq_scaled b (min a.e b.e) (min_le_right _ _),
      mul_lt_mul_right (by positivity : (0:ℚ) < 10 ^ (min a.e b.e)), Int.cast_lt]
  simp [Dec.dlt, Dec.scaled]

/-- The boolean value equality on decimals decides the rational equality. -/
theorem deq_iff (a b : Dec) : Dec.deq a b = true ↔ valQ a = valQ b := by
  rw [valQ_eq_scaled a (min a.e b.e) (min_le_left _ _),
      valQ_eq_scaled b (min a.e b.e) (min_le_right _ _),
      mul_left_inj' (by positivity : (10:ℚ) ^ (min a.e b.e) ≠ 0), Int.cast_inj]
  simp [Dec.deq, Dec.scaled]

theorem dle_total (a b : Dec) : Dec.dle a b = true ∨ Dec.dle b a = true := by
  rcases le_total (valQ a) (valQ b) with h | h
  · exact Or.inl ((dle_iff a b).mpr h)
  · exact Or.inr ((dle_iff b a).mpr h)

theorem dle_trans (a b c : Dec) (h₁ : Dec.dle a b = true) (h₂ : Dec.dle b c = true) :
    Dec.dle a c = true :=
  (dle_iff a c).mpr (le_trans ((dle_iff a b).mp h₁) ((dle_iff b c).mp h₂))

theorem goStrLe_cons_iff (x y : Char) (xs ys : Str) :
    goStrLe (x :: xs) (y :: ys) = true ↔
      x.toNat < y.toNat ∨ (x.toNat = y.toNat ∧ goStrLe xs ys = true) := by
  simp only [goStrLe]
  split_ifs with h₁ h₂
  · exact iff_of_true rfl (Or.inl h₁)
  · refine iff_of_false (by simp) ?_
    rintro (h | ⟨e, _⟩) <;> omega
  · constructor
    · intro h
      exact Or.inr ⟨by omega, h⟩
    · rintro (h | ⟨_, h⟩)
      · omega
      · exact h

/-- Totality of the Go string order. -/
theorem goStrLe_total (a b : Str) : goStrLe a b = true ∨ goStrLe b a = true := by
  induction a generalizing b with
  | nil => left; rfl
  | cons x xs ih =>
      cases b with
      | nil => right; rfl
      | cons y ys =>
          rw [goStrLe_cons_iff, goStrLe_cons_iff]
          rcases ih ys with h | h
          · rcases Nat.lt_trichotomy x.toNat y.toNat with h' | h' | h'
            · exact Or.inl (Or.inl h')
            · exact Or.inl (Or.inr ⟨h', h⟩)
            · exact Or.inr (Or.inl h')
          · rcases Nat.lt_trichotomy x.toNat y.toNat with h' | h' | h'
            · exact Or.inl (Or.inl h')
            · exact Or.inr (Or.inr ⟨h'.symm, h⟩)
            · exact Or.inr (Or.inl h')

/-- Transitivity of the Go string order. -/
theorem goStrLe_trans (a b c : Str) (h₁ : goStrLe a b = true)
    (h₂ : goStrLe b c = true) : goStrLe a c = true := by
  induction a generalizing b c with
  | nil => rfl
  | cons x xs ih =>
      cases b with
      | nil => simp [goStrLe] at h₁
      | cons y ys =>
          cases c with
          | nil => simp [goStrLe] at h₂
          | cons z zs =>
              rw [goStrLe_cons_iff] at h₁ h₂ ⊢
              rcases h₁ with h₁ | ⟨e₁, r₁⟩ <;> rcases h₂ with h₂ | ⟨e₂, r₂⟩
              · exact Or.inl (by omega)
              · exact Or.inl (by omega)
              · exact Or.inl (by omega)
              · exact Or.inr ⟨by omega, ih ys zs r₁ r₂⟩

/-- Minimum fold specification: result below the seed, below every element,
and equal to the seed or a member. -/
theorem foldl_min_spec : ∀ (xs : List Int) (init : Int),
    (xs.foldl (fun r n => if n < r then n else r) init) ≤ init ∧
    (∀ n ∈ xs, (xs.foldl (fun r n => if n < r then n else r) init) ≤ n) ∧
    ((xs.foldl (fun r n => if n < r then n else r) init) = init ∨
      (xs.foldl (fun r n => if n < r then n else r) init) ∈ xs)
  | [], _ => by simp
  | x :: t, init => by
      simp only [List.foldl_cons]
      by_cases hx : x < init
      · rw [if_pos hx]
        obtain ⟨h₁, h₂, h₃⟩ := foldl_min_spec t x
        refine ⟨by omega, ?_, ?_⟩
        · intro n hn
          rcases List.mem_cons.mp hn with rfl | hn
          · exact h₁
          · exact h₂ n hn
        · rcases h₃ with h | h
          · exact Or.inr (by rw [h]; exact List.mem_cons_self x t)
          · exact Or.inr (List.mem_cons_of_mem x h)
      · rw [if_neg hx]
        obtain ⟨h₁, h₂, h₃⟩ := foldl_min_spec t init
        refine ⟨h₁, ?_, ?_⟩
        · intro n hn
          rcases List.mem_cons.mp hn with rfl | hn
          · omega
          · exact h₂ n hn
        · rcases h₃ with h | h
          · exact Or.inl h
          · exact Or.inr (List.mem_cons_of_mem x h)

/-- Maximum fold specification. -/
theorem foldl_max_spec : ∀ (xs : List Int) (init : Int),
    init ≤ (xs.foldl (fun r n => if r < n then n else r) init) ∧
    (∀ n ∈ xs, n ≤ (xs.foldl (fun r n => if r < n then n else r) init)) ∧
    ((xs.foldl (fun r n => if r < n then n else r) init) = init ∨
      (xs.foldl (fun r n => if r < n then n else r) init) ∈ xs)
  | [], _ => by simp
  | x :: t, init => by
      simp only [List.foldl_cons]
      by_cases hx : init < x
      · rw [if_pos hx]
        obtain ⟨h₁, h₂, h₃⟩ := foldl_max_spec t x
        refine ⟨by omega, ?_, ?_⟩
        · intro n hn
          rcases List.mem_cons.mp hn with rfl | hn
          · exact h₁
          · exact h₂ n hn
        · rcases h₃ with h | h
          · exact Or.inr (by rw [h]; exact List.mem_cons_self x t)
          · exact Or.inr (List.mem_cons_of_mem x h)
      · rw [if_neg hx]
        obtain ⟨h₁, h₂, h₃⟩ := foldl_max_spec t init
        refine ⟨h₁, ?_, ?_⟩
        · intro n hn
          rcases List.mem_cons.mp hn with rfl | hn
          · omega
          · exact h₂ n hn
        · rcases h₃ with h | h
          · exact Or.inl h
          · exact Or.inr (List.mem_cons_of_mem x h)

/-- The skip-style folds of the Int reductions equal folds over the
collected int elements. -/
theorem foldl_int_filterMap (g : Int → Int → Int) (init : Int) (l : List Field) :
    l.foldl (fun r f => match f with | .fint n => g r n | _ => r) init
      = (intSlice l).foldl g init := by
  induction l generalizing init with
  | nil => rfl
  | cons f tl ih => cases f <;> simp [intSlice, List.filterMap_cons, ih]

/-- The `present` flag of `IntMin`/`IntMax` is set exactly when some int
element exists. -/
theorem anyInt_iff (l : List Field) : anyInt l = !(intSlice l).isEmpty := by
  induction l with
  | nil => rfl
  | cons f tl ih =>
      cases f <;> simp [anyInt, intSlice, List.filterMap_cons] at ih ⊢ <;> simp [ih]

/-! ## Claim theorems -/

/-- C9: calling `Sort` on an empty list never returns normally: the method
reads `ego.val[0]` before any type check, so the empty list raises the
runtime index-out-of-range panic, not the TypeMismatch panic of the
`default` branch. -/
theorem c9_sort_empty_runtime_panic :
    listSort ([] : List Field) = .error .runtimeIndex := rfl

/-- C10: construction from a native `uint64` is a plain two's-complement
cast: `parseVal` stores `Int(int(u))`, so a value at or above `2^63` wraps
by `2^64` into a negative Int (congruent to `u` modulo `2^64`) instead of
failing with `UnsupportedType`. -/
theorem c10_uint64_cast_wraps (u : Nat) (h₁ : u < 2 ^ 64) (h₂ : 2 ^ 63 ≤ u) :
    parseVal (.nuint64 u) = .fint ((u : Int) - 2 ^ 64) ∧
    (u : Int) - 2 ^ 64 < 0 ∧
    ((u : Int) - 2 ^ 64) % 2 ^ 64 = (u : Int) % 2 ^ 64 := by
  refine ⟨?_, by omega, by omega⟩
  simp only [parseVal, intOfUint64]
  rw [if_neg (by omega)]

/-- Witness for C10 at `u = 2^63`. -/
theorem c10_uint64_cast_wraps_witness :
    parseVal (.nuint64 (2 ^ 63)) = .fint (((2 ^ 63 : Nat) : Int) - 2 ^ 64) ∧
    ((2 ^ 63 : Nat) : Int) - 2 ^ 64 < 0 ∧
    (((2 ^ 63 : Nat) : Int) - 2 ^ 64) % 2 ^ 64 = ((2 ^ 63 : Nat) : Int) % 2 ^ 64 :=
  c10_uint64_cast_wraps (2 ^ 63) (by norm_num) (by norm_num)

/-- C4: the claim holds for lists (`list.TypeOf` is bounds-checked and
returns `TypeUndefined` out of range) but the code breaks it for objects:
`MapObject.TypeOf` has no existence check, a missing key gives the `nil`
interface, no case of the type switch matches, and the `default` branch
panics `Unknown field type.` — contradicting the `Object` interface
documentation, which promises `TypeUndefined`. -/
theorem c4_object_typeof_panics_on_missing_key :
    mapObjectTypeOf ([] : List (Str × Field)) ['k'] = .error .unknownFieldType ∧
    mapObjectTypeOf [(['a'], .fint 1)] ['k'] = .error .unknownFieldType ∧
    listTypeOf ([] : List Field) 0 = .undefined ∧
    listTypeOf [.fint 1] 5 = .undefined ∧
    listTypeOf [.fint 1] (-1) = .undefined :=
  ⟨rfl, rfl, by decide, by decide, by decide⟩

/-- C6 counterexample: `Sort` on the heterogeneous list `[2, "a"]` does not
fail with a TypeMismatch panic; it succeeds, silently dropping the
non-matching element. -/
theorem c6_sort_heterogeneous_succeeds :
    listSort [.fint 2, .fstr ['a']] = .ok [.fint 2] := rfl

/-- C6 amended: `Sort` panics with runtime index-out-of-range on an empty
list; when the first element is a String, Int or Float it succeeds,
sorting the elements of that one variant ascending by its natural order
(the result is a permutation of those elements; elements of other variants
are silently dropped, so on a homogeneous list the result is an ascending
permutation of the whole list); it panics with the TypeMismatch message
only when the first element is of another variant. -/
theorem c6_sort_dispatch_and_order :
    listSort ([] : List Field) = .error .runtimeIndex ∧
    (∀ l (s : Str) tl, l = Field.fstr s :: tl →
       ∃ out, listSort l = .ok (out.map .fstr) ∧ out.Perm (stringSlice l) ∧
         List.Sorted (fun a b => goStrLe a b = true) out) ∧
    (∀ l (n : Int) tl, l = Field.fint n :: tl →
       ∃ out, listSort l = .ok (out.map .fint) ∧ out.Perm (intSlice l) ∧
         List.Sorted (fun a b : Int => a ≤ b) out) ∧
    (∀ l (d : Dec) tl, l = Field.ffloat d :: tl →
       ∃ out, listSort l = .ok (out.map .ffloat) ∧ out.Perm (floatSlice l) ∧
         List.Sorted (fun a b => Dec.dle a b = true) out) ∧
    (∀ l f tl, l = f :: tl → fieldType f ≠ .tstring → fieldType f ≠ .tint →
       fieldType f ≠ .tfloat → listSort l = .error .sortUnsupported) := by
  haveI : IsTrans Str (fun a b => goStrLe a b = true) := ⟨goStrLe_trans⟩
  haveI : IsTotal Str (fun a b => goStrLe a b = true) := ⟨goStrLe_total⟩
  haveI : IsTrans Dec (fun a b => Dec.dle a b = true) := ⟨dle_trans⟩
  haveI : IsTotal Dec (fun a b => Dec.dle a b = true) := ⟨dle_total⟩
  refine ⟨rfl, ?_, ?_, ?_, ?_⟩
  · rintro l s tl rfl
    exact ⟨_, rfl, List.perm_insertionSort _ _, List.sorted_insertionSort _ _⟩
  · rintro l n tl rfl
    exact ⟨_, rfl, List.perm_insertionSort _ _, List.sorted_insertionSort _ _⟩
  · rintro l d tl rfl
    exact ⟨_, rfl, List.perm_insertionSort _ _, List.sorted_insertionSort _ _⟩
  · rintro l f tl rfl h₁ h₂ h₃
    cases f <;> simp [fieldType] at h₁ h₂ h₃ ⊢ <;> rfl

/-- Witness for C6 amended at the list `[2, "a", 1]`. -/
theorem c6_sort_dispatch_and_order_witness :
    ∃ out, listSort [.fint 2, .fstr ['a'], .fint 1] = .ok (out.map .fint) ∧
      out.Perm (intSlice [.fint 2, .fstr ['a'], .fint 1]) ∧
      List.Sorted (fun a b : Int => a ≤ b) out :=
  c6_sort_dispatch_and_order.2.2.1 _ 2 [.fstr ['a'], .fint 1] rfl

/-- C7 counterexample: a list containing a non-Int element does not make
the Int-suffixed reductions fail; each returns a computed result
(`IntSum`/`IntProd` over the Int elements only, `IntMin`/`IntMax`
likewise). -/
theorem c7_int_reductions_skip_non_ints :
    intSum [.fint 1, .fstr ['a']] = 1 ∧
    intProd [.fint 1, .fstr ['a']] = 1 ∧
    intMin [.fint 1, .fstr ['a']] = 1 ∧
    intMax [.fint 1, .fstr ['a']] = 1 :=
  ⟨rfl, rfl, by decide, by decide⟩

/-- C7 amended: the Int-suffixed reductions never fail and do not require a
homogeneous list: non-Int elements are silently skipped; `IntSum` and
`IntProd` combine exactly the Int elements; `IntMin`/`IntMax` return `0`
when no Int element is present, and otherwise (for machine-range elements)
the least/greatest Int element. -/
theorem c7_int_reductions_semantics (l : List Field) :
    intSum l = (intSlice l).foldl (· + ·) 0 ∧
    intProd l = (intSlice l).foldl (· * ·) 1 ∧
    (intSlice l = [] → intMin l = 0 ∧ intMax l = 0) ∧
    (intSlice l ≠ [] → (∀ n ∈ intSlice l, goMinInt ≤ n ∧ n ≤ goMaxInt) →
      intMin l ∈ intSlice l ∧ ∀ n ∈ intSlice l, intMin l ≤ n) ∧
    (intSlice l ≠ [] → (∀ n ∈ intSlice l, goMinInt ≤ n ∧ n ≤ goMaxInt) →
      intMax l ∈ intSlice l ∧ ∀ n ∈ intSlice l, n ≤ intMax l) := by
  refine ⟨foldl_int_filterMap _ _ l, foldl_int_filterMap _ _ l, ?_, ?_, ?_⟩
  · intro h
    simp [intMin, intMax, anyInt_iff, h]
  · intro hne hb
    obtain ⟨h₁, h₂, h₃⟩ := foldl_min_spec (intSlice l) goMaxInt
    have hmin : intMin l
        = (intSlice l).foldl (fun r n => if n < r then n else r) goMaxInt := by
      simp [intMin, anyInt_iff, hne,
        foldl_int_filterMap (fun r n => if n < r then n else r)]
    rw [hmin]
    refine ⟨?_, h₂⟩
    rcases h₃ with h | h
    · obtain ⟨n, hn⟩ := List.exists_mem_of_ne_nil _ hne
      have hub := h₂ n hn
      have hr := (hb n hn).2
      have he : (intSlice l).foldl (fun r n => if n < r then n else r) goMaxInt = n := by
        omega
      exact he ▸ hn
    · exact h
  · intro hne hb
    obtain ⟨h₁, h₂, h₃⟩ := foldl_max_spec (intSlice l) goMinInt
    have hmax : intMax l
        = (intSlice l).foldl (fun r n => if r < n then n else r) goMinInt := by
      simp [intMax, anyInt_iff, hne,
        foldl_int_filterMap (fun r n => if r < n then n else r)]
    rw [hmax]
    refine ⟨?_, h₂⟩
    rcases h₃ with h | h
    · obtain ⟨n, hn⟩ := List.exists_mem_of_ne_nil _ hne
      have hub := h₂ n hn
      have hr := (hb n hn).1
      have he : (intSlice l).foldl (fun r n => if r < n then n else r) goMinInt = n := by
        omega
      exact he ▸ hn
    · exact h

/-- Witness for C7 amended at the list `[1, "a", 3]`. -/
theorem c7_int_reductions_semantics_witness :
    intSum [.fint 1, .fstr ['a'], .fint 3] = 4 ∧
    intMin [.fint 1, .fstr ['a'], .fint 3] ∈ intSlice [.fint 1, .fstr ['a'], .fint 3] := by
  have h := c7_int_reductions_semantics [.fint 1, .fstr ['a'], .fint 3]
  exact ⟨by decide, (h.2.2.2.1 (by decide) (by decide)).1⟩

/-- C2 counterexample: the parser does not treat whitespace as a separator
in the after-value state in the way the claim states.  `[1 2]` parses
without error but yields `[12]` (the whitespace inside the bare token is
skipped and the digits concatenate), which does not equal `[1, 2]`; the
object input with a missing comma parses without error but yields
`\x7b"a":"b"\x7d`, not the two-pair object. -/
theorem c2_missing_comma_changes_value :
    goParseList "[1 2]".toList = .ok [.fint 12] ∧
    listEquals [.fint 12] [.fint 1, .fint 2] = false ∧
    goParseObject "\x7b\"a\":\x7b\x7d \"b\":2\x7d".toList = .ok [(['a'], .fstr ['b'])] ∧
    objEquals [(['a'], .fstr ['b'])] [(['a'], .fobj []), (['b'], .fint 2)] = false :=
  ⟨rfl, rfl, rfl, by decide⟩

/-- C2 amended: the parser indeed reports no error on a missing comma, but
whitespace is not a separator and the result differs from the
comma-separated input: `[1 2]` yields `[12]` while `[1,2]` yields `[1, 2]`;
in an object, after a nested value a quoted token re-binds the pending key
and the remainder is skipped, so the braced input `"a":\x7b\x7d "b":2` yields
the one-pair object `a : "b"` while the comma-separated form yields the
two-pair object. -/
theorem c2_missing_comma_tolerated_not_equivalent :
    goParseList "[1 2]".toList = .ok [.fint 12] ∧
    goParseList "[1,2]".toList = .ok [.fint 1, .fint 2] ∧
    goParseObject "\x7b\"a\":\x7b\x7d \"b\":2\x7d".toList = .ok [(['a'], .fstr ['b'])] ∧
    goParseObject "\x7b\"a\":\x7b\x7d,\"b\":2\x7d".toList
      = .ok [(['a'], .fobj []), (['b'], .fint 2)] ∧
    goParseList "[nu ll,[]2]".toList = .ok [.fnil, .flist [], .fint 2] :=
  ⟨rfl, rfl, rfl, rfl, rfl⟩

/-- The per-state dispatch of the byte-level list loop, on an already
decoded character: identical to the char-level branches except that the
recursive calls go back to the byte loops. -/
def listDispatchB (f : Nat) (st : LSt) (c : Char) (rest : List Nat) (line : Nat)
    (acc : List Field) (val : Str) (inVal : Bool) : Except PErr (List Field × List Nat) :=
  match st with
  | .val =>
    if goIsSpace c then
      runListB f .val rest (if c = '\n' then line + 1 else line) acc val inVal
    else if !inVal && c = '"' then runListB f .valString rest line acc val inVal
    else if !inVal && c = braceOpen then
      match runObjectB f .keyStart rest line [] [] [] false with
      | .ok (o, rest') => runListB f .val rest' line (acc ++ [.fobj o]) val inVal
      | .error e => .error e
    else if !inVal && c = '[' then
      match runListB f .val rest line [] [] false with
      | .ok (l, rest') => runListB f .val rest' line (acc ++ [.flist l]) val inVal
      | .error e => .error e
    else if c = ',' || c = ']' then
      if val ≠ [] then
        match parsePrimField val with
        | some fld =>
            if c = ']' then .ok (acc ++ [fld], rest)
            else runListB f .val rest line (acc ++ [fld]) [] false
        | none => .error .invalidValue
      else if c = ']' then .ok (acc, rest)
      else runListB f .val rest line acc val inVal
    else runListB f .val rest line acc (val ++ [c]) true
  | .valString =>
    if c = '\\' then runListB f .valEscape rest line acc val inVal
    else if c = '"' then
      match unquoteBody val with
      | some s => runListB f .valAfterString rest line (acc ++ [.fstr s]) [] inVal
      | none => .error .unquoteErr
    else runListB f .valString rest line acc (val ++ [c]) inVal
  | .valEscape => runListB f .valString rest line acc (val ++ ['\\', c]) inVal
  | .valAfterString =>
    if c = ',' then runListB f .val rest line acc val inVal
    else if c = ']' then .ok (acc, rest)
    else runListB f .valAfterString rest line acc val inVal

/-- The per-state dispatch of the byte-level object loop. -/
def objDispatchB (f : Nat) (st : OSt) (c : Char) (rest : List Nat) (line : Nat)
    (o : List (Str × Field)) (key val : Str) (inVal : Bool) :
    Except PErr (List (Str × Field) × List Nat) :=
  match st with
  | .keyStart =>
    if goIsSpace c then
      runObjectB f .keyStart rest (if c = '\n' then line + 1 else line) o key val inVal
    else if c = braceClose then .ok (o, rest)
    else if c = '"' then runObjectB f .key rest line o [] val inVal
    else .error .expectQuote
  | .key =>
    if c = '"' then runObjectB f .afterKey rest line o key val inVal
    else if c = '\\' then runObjectB f .keyEscape rest line o key val inVal
    else runObjectB f .key rest line o (key ++ [c]) val inVal
  | .keyEscape => runObjectB f .key rest line o (key ++ ['\\', c]) val inVal
  | .afterKey =>
    if goIsSpace c then
      runObjectB f .afterKey rest (if c = '\n' then line + 1 else line) o key val inVal
    else if c ≠ ':' then .error .expectColon
    else
      match unquoteBody key with
      | some k => runObjectB f .val rest line o k [] false
      | none => .error .unquoteErr
  | .val =>
    if goIsSpace c then
      runObjectB f .val rest (if c = '\n' then line + 1 else line) o key val inVal
    else if !inVal && c = '"' then runObjectB f .valString rest line o key val inVal
    else if !inVal && c = braceOpen then
      match runObjectB f .keyStart rest line [] [] [] false with
      | .ok (o', rest') =>
          if key = [] then .error .setPanic
          else runObjectB f .val rest' line (objSet o key (.fobj o')) key val inVal
      | .error e => .error e
    else if !inVal && c = '[' then
      match runListB f .val rest line [] [] false with
      | .ok (l, rest') =>
          if key = [] then .error .setPanic
          else runObjectB f .val rest' line (objSet o key (.flist l)) key val inVal
      | .error e => .error e
    else if c = ',' || c = braceClose then
      if val ≠ [] then
        match parsePrimField val with
        | some fld =>
            if key = [] then .error .setPanic
            else if c = ',' then
              runObjectB f .keyStart rest line (objSet o key fld) key val inVal
            else .ok (objSet o key fld, rest)
        | none => .error .invalidValue
      else if c = ',' then runObjectB f .keyStart rest line o key val inVal
      else .ok (o, rest)
    else runObjectB f .val rest line o key (val ++ [c]) true
  | .valString =>
    if c = '\\' then runObjectB f .valEscape rest line o key val inVal
    else if c = '"' then
      match unquoteBody val with
      | some s =>
          if key = [] then .error .setPanic
          else runObjectB f .valAfterString rest line (objSet o key (.fstr s)) key val inVal
      | none => .error .unquoteErr
    else runObjectB f .valString rest line o key (val ++ [c]) inVal
  | .valEscape => runObjectB f .valString rest line o key (val ++ ['\\', c]) inVal
  | .valAfterString =>
    if c = ',' then runObjectB f .keyStart rest line o key val inVal
    else if c = braceClose then .ok (o, rest)
    else runObjectB f .valAfterString rest line o key val inVal

theorem runListB_nil (fuel : Nat) (st : LSt) (line : Nat) (acc : List Field)
    (val : Str) (inVal : Bool) :
    runListB fuel st [] line acc val inVal = .error .endOfInput := by
  cases fuel <;> rfl

theorem runListB_zero (st : LSt) (b : Nat) (brest : List Nat) (line : Nat)
    (acc : List Field) (val : Str) (inVal : Bool) :
    runListB 0 st (b :: brest) line acc val inVal = .error .outOfFuel := rfl

/-- One step of the byte-level list loop on a nonempty input: decode a
rune, fail on size zero, otherwise dispatch on the state. Definitional. -/
theorem runListB_cons (f : Nat) (st : LSt) (b : Nat) (brest : List Nat)
    (line : Nat) (acc : List Field) (val : Str) (inVal : Bool) :
    runListB (f + 1) st (b :: brest) line acc val inVal =
      if (decodeRune (b :: brest)).2 = 0 then .error .encoding
      else listDispatchB f st (Char.ofNat (decodeRune (b :: brest)).1)
        ((b :: brest).drop (decodeRune (b :: brest)).2) line acc val inVal := rfl

theorem runObjectB_nil (fuel : Nat) (st : OSt) (line : Nat)
    (o : List (Str × Field)) (key val : Str) (inVal : Bool) :
    runObjectB fuel st [] line o key val inVal = .error .endOfInput := by
  cases fuel <;> rfl

theorem runObjectB_zero (st : OSt) (b : Nat) (brest : List Nat) (line : Nat)
    (o : List (Str × Field)) (key val : Str) (inVal : Bool) :
    runObjectB 0 st (b :: brest) line o key val inVal = .error .outOfFuel := rfl

/-- One step of the byte-level object loop on a nonempty input. -/
theorem runObjectB_cons (f : Nat) (st : OSt) (b : Nat) (brest : List Nat)
    (line : Nat) (o : List (Str × Field)) (key val : Str) (inVal : Bool) :
    runObjectB (f + 1) st (b :: brest) line o key val inVal =
      if (decodeRune (b :: brest)).2 = 0 then .error .encoding
      else objDispatchB f st (Char.ofNat (decodeRune (b :: brest)).1)
        ((b :: brest).drop (decodeRune (b :: brest)).2) line o key val inVal := rfl

/-- The decoder never reports size zero on nonempty input (it returns the
replacement rune with size one instead): this is the fact that makes the
`InvalidEncoding` branch unreachable. -/
theorem decodeRune_pos (b : Nat) (rest : List Nat) : 0 < (decodeRune (b :: rest)).2 := by
  unfold decodeRune
  repeat' split
  all_goals simp_all
  all_goals (split <;> simp)

set_option maxHeartbeats 1000000 in
/-- Neither byte-level loop can ever return the encoding error: one
mutual induction on the fuel, using the step equations and the
positivity of the decoder size. -/
theorem runB_ne_encoding (fuel : Nat) :
    (∀ st cs line acc val inVal, runListB fuel st cs line acc val inVal ≠ .error .encoding) ∧
    (∀ st cs line o key val inVal, runObjectB fuel st cs line o key val inVal ≠ .error .encoding) := by
  induction fuel with
  | zero =>
    constructor
    · intro st cs line acc val inVal h
      cases cs with
      | nil => rw [runListB_nil] at h; exact PErr.noConfusion (Except.error.inj h)
      | cons b brest => rw [runListB_zero] at h; exact PErr.noConfusion (Except.error.inj h)
    · intro st cs line o key val inVal h
      cases cs with
      | nil => rw [runObjectB_nil] at h; exact PErr.noConfusion (Except.error.inj h)
      | cons b brest => rw [runObjectB_zero] at h; exact PErr.noConfusion (Except.error.inj h)
  | succ f ih =>
    obtain ⟨ihL, ihO⟩ := ih
    constructor
    · intro st cs line acc val inVal h
      cases cs with
      | nil => rw [runListB_nil] at h; exact PErr.noConfusion (Except.error.inj h)
      | cons b brest =>
        rw [runListB_cons, if_neg (by have := decodeRune_pos b brest; omega)] at h
        cases st <;> simp only [listDispatchB] at h <;> repeat' split at h
        all_goals first
          | exact ihL _ _ _ _ _ _ h
          | exact ihO _ _ _ _ _ _ _ h
          | exact PErr.noConfusion (Except.error.inj h)
          | exact Except.noConfusion h
          | (rename_i heq; injection h with h; subst h; exact ihL _ _ _ _ _ _ heq)
          | (rename_i heq; injection h with h; subst h; exact ihO _ _ _ _ _ _ _ heq)
    · intro st cs line o key val inVal h
      cases cs with
      | nil => rw [runObjectB_nil] at h; exact PErr.noConfusion (Except.error.inj h)
      | cons b brest =>
        rw [runObjectB_cons, if_neg (by have := decodeRune_pos b brest; omega)] at h
        cases st <;> simp only [objDispatchB] at h <;> repeat' split at h
        all_goals first
          | exact ihL _ _ _ _ _ _ h
          | exact ihO _ _ _ _ _ _ _ h
          | exact PErr.noConfusion (Except.error.inj h)
          | exact Except.noConfusion h
          | (rename_i heq; injection h with h; subst h; exact ihL _ _ _ _ _ _ heq)
          | (rename_i heq; injection h with h; subst h; exact ihO _ _ _ _ _ _ _ heq)

/-- C8: the claim says the parser fails with an InvalidEncoding error on
every input containing invalid UTF-8. In the code that branch is dead:
`utf8.DecodeRuneInString` returns size 0 only on an empty string, and the
loop never decodes at an empty suffix, so on invalid bytes it gets
(RuneError, 1) and happily consumes them as U+FFFD characters. The
decoder size is always positive on nonempty input, no run of either loop
ever returns the encoding error, and the concrete invalid-UTF-8 input
`[0x5b, 0x22, 0xff, 0x22, 0x5d]` (the list ["\xff"]) parses successfully
to a list holding the one-character replacement-rune string. -/
theorem c8_invalid_encoding_branch_dead :
    (∀ b rest, 1 ≤ (decodeRune (b :: rest)).2) ∧
    (∀ fuel st cs line acc val inVal,
      runListB fuel st cs line acc val inVal ≠ .error .encoding) ∧
    (∀ fuel st cs line o key val inVal,
      runObjectB fuel st cs line o key val inVal ≠ .error .encoding) ∧
    goParseListBytes [0x5b, 0x22, 0xff, 0x22, 0x5d]
      = .ok [.fstr [Char.ofNat 0xfffd]] :=
  ⟨fun b rest => decodeRune_pos b rest,
   fun fuel => (runB_ne_encoding fuel).1,
   fun fuel => (runB_ne_encoding fuel).2,
   rfl⟩
theorem lookupObj_objSet (o : List (Str × Field)) (k : Str) (v : Field) :
    lookupObj (objSet o k v) k = some v := by
  induction o with
  | nil => simp [objSet, lookupObj]
  | cons p tl ih =>
    obtain ⟨k₀, v₀⟩ := p
    by_cases h : k₀ = k
    · simp [objSet, h, lookupObj]
    · simp [objSet, h, lookupObj, ih]

theorem objGet_objSet (o : List (Str × Field)) (k : Str) (v : Field) :
    objGet (objSet o k v) k = .ok v := by
  simp [objGet, lookupObj_objSet]

theorem objGetObject_objSet (o : List (Str × Field)) (k : Str) (c : List (Str × Field)) :
    objGetObject (objSet o k (.fobj c)) k = .ok c := by
  simp [objGetObject, objGet_objSet]

theorem objGetList_objSet (o : List (Str × Field)) (k : Str) (c : List Field) :
    objGetList (objSet o k (.flist c)) k = .ok c := by
  simp [objGetList, objGet_objSet]

theorem objSetChecked_ok (o : List (Str × Field)) (k : Str) (v : Field)
    (o' : List (Str × Field)) (h : objSetChecked o k v = .ok o') :
    k ≠ [] ∧ o' = objSet o k v := by
  unfold objSetChecked at h
  split at h
  · exact Except.noConfusion h
  · exact ⟨by assumption, (Except.ok.inj h).symm⟩

theorem listGet_append (l : List Field) (x : Field) :
    listGet (l ++ [x]) ((l.length : Int)) = .ok x := by
  simp [listGet]

theorem listReplace_ok (l : List Field) (i : Int) (v : Field) (l' : List Field)
    (h : listReplace l i v = .ok l') :
    0 ≤ i ∧ i < l.length ∧ l' = l.set i.toNat v := by
  unfold listReplace at h
  split at h
  · exact Except.noConfusion h
  · rename_i hc
    push_neg at hc
    exact ⟨by omega, by omega, (Except.ok.inj h).symm⟩

theorem listGet_set (l : List Field) (i : Int) (v : Field) (h0 : 0 ≤ i)
    (h1 : i < l.length) :
    listGet (l.set i.toNat v) i = .ok v := by
  have ht : i.toNat < l.length := by omega
  simp [listGet, List.getElem?_set_self, ht, not_lt.mpr h0]

theorem listGet_replace (l : List Field) (i : Int) (v : Field) (l' : List Field)
    (h : listReplace l i v = .ok l') : listGet l' i = .ok v := by
  obtain ⟨h0, h1, rfl⟩ := listReplace_ok l i v l' h
  exact listGet_set l i v h0 h1

theorem listGetObject_replace (l : List Field) (i : Int) (c : List (Str × Field))
    (l' : List Field) (h : listReplace l i (.fobj c) = .ok l') :
    listGetObject l' i = .ok c := by
  simp [listGetObject, listGet_replace _ _ _ _ h]

theorem listGetList_replace (l : List Field) (i : Int) (c : List Field)
    (l' : List Field) (h : listReplace l i (.flist c) = .ok l') :
    listGetList l' i = .ok c := by
  simp [listGetList, listGet_replace _ _ _ _ h]

theorem listGetObject_append (l : List Field) (c : List (Str × Field)) :
    listGetObject (l ++ [.fobj c]) ((l.length : Int)) = .ok c := by
  simp [listGetObject, listGet_append]

theorem listGetList_append (l : List Field) (c : List Field) :
    listGetList (l ++ [.flist c]) ((l.length : Int)) = .ok c := by
  simp [listGetList, listGet_append]

set_option maxHeartbeats 1000000 in
theorem setTF_getTF (n : Nat) :
    (∀ tf o v o', tf.length ≤ n → objSetTF o tf v = .ok o' → objGetTF o' tf = .ok v) ∧
    (∀ tf l v l', tf.length ≤ n → listSetTF l tf v = .ok l' → listGetTF l' tf = .ok v) := by
  induction n with
  | zero =>
    constructor
    · intro tf o v o' hlen h
      have htf : tf = [] := List.eq_nil_of_length_eq_zero (Nat.le_zero.mp hlen)
      subst htf; simp [objSetTF] at h
    · intro tf l v l' hlen h
      have htf : tf = [] := List.eq_nil_of_length_eq_zero (Nat.le_zero.mp hlen)
      subst htf; simp [listSetTF] at h
  | succ n ih =>
    obtain ⟨ihO, ihL⟩ := ih
    constructor
    · intro tf o v o' hlen h
      cases tf with
      | nil => simp [objSetTF] at h
      | cons c rest =>
        rw [objSetTF] at h
        by_cases hvalid : c ≠ '.' ∨ rest = []
        · rw [if_pos hvalid] at h; exact Except.noConfusion h
        rw [if_neg hvalid] at h
        simp only [] at h
        rw [objGetTF, if_neg hvalid]
        simp only []
        have hrest : rest.length ≤ n := by
          simp only [List.length_cons] at hlen; omega
        by_cases hD : idxOf '.' rest > 0 ∧
            (idxOf '#' rest < 0 ∨ idxOf '.' rest < idxOf '#' rest)
        · rw [if_pos hD] at h ⊢
          have hrem : (List.drop (idxOf '.' rest).toNat rest).length ≤ n := by
            simp only [List.length_drop]; omega
          by_cases hex : keyExists o (List.take (idxOf '.' rest).toNat rest) = true
          · rw [if_pos hex] at h
            cases heq : objGetObject o (List.take (idxOf '.' rest).toNat rest) with
            | error e => rw [heq] at h; simp only [] at h; exact Except.noConfusion h
            | ok child =>
              rw [heq] at h; simp only [] at h
              cases heq2 : objSetTF child (List.drop (idxOf '.' rest).toNat rest) v with
              | error e => rw [heq2] at h; simp only [] at h; exact Except.noConfusion h
              | ok child' =>
                rw [heq2] at h; simp only [] at h
                obtain ⟨hk, rfl⟩ := objSetChecked_ok _ _ _ _ h
                rw [objGetObject_objSet]
                exact ihO _ _ _ _ hrem heq2
          · rw [if_neg hex] at h
            cases heq2 : objSetTF [] (List.drop (idxOf '.' rest).toNat rest) v with
            | error e => rw [heq2] at h; simp only [] at h; exact Except.noConfusion h
            | ok child' =>
              rw [heq2] at h; simp only [] at h
              obtain ⟨hk, rfl⟩ := objSetChecked_ok _ _ _ _ h
              rw [objGetObject_objSet]
              exact ihO _ _ _ _ hrem heq2
        rw [if_neg hD] at h ⊢
        by_cases hH : idxOf '#' rest > 0 ∧
            (idxOf '.' rest < 0 ∨ idxOf '#' rest < idxOf '.' rest)
        · rw [if_pos hH] at h ⊢
          have hrem : (List.drop (idxOf '#' rest).toNat rest).length ≤ n := by
            simp only [List.length_drop]; omega
          by_cases hex : keyExists o (List.take (idxOf '#' rest).toNat rest) = true
          · rw [if_pos hex] at h
            cases heq : objGetList o (List.take (idxOf '#' rest).toNat rest) with
            | error e => rw [heq] at h; simp only [] at h; exact Except.noConfusion h
            | ok child =>
              rw [heq] at h; simp only [] at h
              cases heq2 : listSetTF child (List.drop (idxOf '#' rest).toNat rest) v with
              | error e => rw [heq2] at h; simp only [] at h; exact Except.noConfusion h
              | ok child' =>
                rw [heq2] at h; simp only [] at h
                obtain ⟨hk, rfl⟩ := objSetChecked_ok _ _ _ _ h
                rw [objGetList_objSet]
                exact ihL _ _ _ _ hrem heq2
          · rw [if_neg hex] at h
            cases heq2 : listSetTF [] (List.drop (idxOf '#' rest).toNat rest) v with
            | error e => rw [heq2] at h; simp only [] at h; exact Except.noConfusion h
            | ok child' =>
              rw [heq2] at h; simp only [] at h
              obtain ⟨hk, rfl⟩ := objSetChecked_ok _ _ _ _ h
              rw [objGetList_objSet]
              exact ihL _ _ _ _ hrem heq2
        rw [if_neg hH] at h ⊢
        obtain ⟨hk, rfl⟩ := objSetChecked_ok _ _ _ _ h
        exact objGet_objSet o rest v
    · intro tf l v l' hlen h
      cases tf with
      | nil => simp [listSetTF] at h
      | cons c rest =>
        rw [listSetTF] at h
        by_cases hvalid : rest = [] ∨ c ≠ '#'
        · rw [if_pos hvalid] at h; exact Except.noConfusion h
        rw [if_neg hvalid] at h
        simp only [] at h
        rw [listGetTF, if_neg hvalid]
        simp only []
        have hrest : rest.length ≤ n := by
          simp only [List.length_cons] at hlen; omega
        by_cases hD : idxOf '.' rest > 0 ∧
            (idxOf '#' rest < 0 ∨ idxOf '.' rest < idxOf '#' rest)
        · rw [if_pos hD] at h ⊢
          have hrem : (List.drop (idxOf '.' rest).toNat rest).length ≤ n := by
            simp only [List.length_drop]; omega
          cases hp : parseIntGo (List.take (idxOf '.' rest).toNat rest) with
          | none => rw [hp] at h; simp only [] at h; exact Except.noConfusion h
          | some index =>
            rw [hp] at h
            simp only [] at h
            simp only []
            by_cases hix : index = (l.length : Int)
            · rw [if_pos hix] at h
              cases heq2 : objSetTF [] (List.drop (idxOf '.' rest).toNat rest) v with
              | error e => rw [heq2] at h; simp only [] at h; exact Except.noConfusion h
              | ok child' =>
                rw [heq2] at h; simp only [] at h
                obtain rfl := Except.ok.inj h
                rw [hix, listGetObject_append]
                exact ihO _ _ _ _ hrem heq2
            · rw [if_neg hix] at h
              by_cases htype : listTypeOf l index = .tobject
              · rw [if_pos htype] at h
                cases heq : listGetObject l index with
                | error e => rw [heq] at h; simp only [] at h; exact Except.noConfusion h
                | ok child =>
                  rw [heq] at h; simp only [] at h
                  cases heq2 : objSetTF child (List.drop (idxOf '.' rest).toNat rest) v with
                  | error e => rw [heq2] at h; simp only [] at h; exact Except.noConfusion h
                  | ok child' =>
                    rw [heq2] at h; simp only [] at h
                    rw [listGetObject_replace _ _ _ _ h]
                    exact ihO _ _ _ _ hrem heq2
              · rw [if_neg htype] at h
                cases heqR : listReplace l index (.fobj []) with
                | error e => rw [heqR] at h; simp only [] at h; exact Except.noConfusion h
                | ok l₁ =>
                  rw [heqR] at h; simp only [] at h
                  cases heq2 : objSetTF [] (List.drop (idxOf '.' rest).toNat rest) v with
                  | error e => rw [heq2] at h; simp only [] at h; exact Except.noConfusion h
                  | ok child' =>
                    rw [heq2] at h; simp only [] at h
                    rw [listGetObject_replace _ _ _ _ h]
                    exact ihO _ _ _ _ hrem heq2
        rw [if_neg hD] at h ⊢
        by_cases hH : idxOf '#' rest > 0 ∧
            (idxOf '.' rest < 0 ∨ idxOf '#' rest < idxOf '.' rest)
        · rw [if_pos hH] at h ⊢
          have hrem : (List.drop (idxOf '#' rest).toNat rest).length ≤ n := by
            simp only [List.length_drop]; omega
          cases hp : parseIntGo (List.take (idxOf '#' rest).toNat rest) with
          | none => rw [hp] at h; simp only [] at h; exact Except.noConfusion h
          | some index =>
            rw [hp] at h
            simp only [] at h
            simp only []
            by_cases hix : index = (l.length : Int)
            · rw [if_pos hix] at h
              cases heq2 : listSetTF [] (List.drop (idxOf '#' rest).toNat rest) v with
              | error e => rw [heq2] at h; simp only [] at h; exact Except.noConfusion h
              | ok child' =>
                rw [heq2] at h; simp only [] at h
                obtain rfl := Except.ok.inj h
                rw [hix, listGetList_append]
                exact ihL _ _ _ _ hrem heq2
            · rw [if_neg hix] at h
              by_cases htype : listTypeOf l index = .tlist
              · rw [if_pos htype] at h
                cases heq : listGetList l index with
                | error e => rw [heq] at h; simp only [] at h; exact Except.noConfusion h
                | ok child =>
                  rw [heq] at h; simp only [] at h
                  cases heq2 : listSetTF child (List.drop (idxOf '#' rest).toNat rest) v with
                  | error e => rw [heq2] at h; simp only [] at h; exact Except.noConfusion h
                  | ok child' =>
                    rw [heq2] at h; simp only [] at h
                    rw [listGetList_replace _ _ _ _ h]
                    exact ihL _ _ _ _ hrem heq2
              · rw [if_neg htype] at h
                cases heqR : listReplace l index (.flist []) with
                | error e => rw [heqR] at h; simp only [] at h; exact Except.noConfusion h
                | ok l₁ =>
                  rw [heqR] at h; simp only [] at h
                  cases heq2 : listSetTF [] (List.drop (idxOf '#' rest).toNat rest) v with
                  | error e => rw [heq2] at h; simp only [] at h; exact Except.noConfusion h
                  | ok child' =>
                    rw [heq2] at h; simp only [] at h
                    rw [listGetList_replace _ _ _ _ h]
                    exact ihL _ _ _ _ hrem heq2
        rw [if_neg hH] at h ⊢
        cases hp : parseIntGo rest with
        | none => rw [hp] at h; simp only [] at h; exact Except.noConfusion h
        | some index =>
          rw [hp] at h
          simp only [] at h
          simp only []
          by_cases hix : index = (l.length : Int)
          · rw [if_pos hix] at h
            obtain rfl := Except.ok.inj h
            rw [hix]
            exact listGet_append l v
          · rw [if_neg hix] at h
            exact listGet_replace _ _ _ _ h

/-- C3: the wrong-variant half of the claim is false for objects: when an
intermediate path segment exists but holds a non-Object value, `SetTF`
does not replace it with a fresh container — `GetObject` panics with a
type mismatch.  Setting `.a.b` on `{"a": 1}` fails. -/
theorem c3_wrong_variant_intermediate_panics :
    objSetTF [(['a'], .fint 1)] ['.', 'a', '.', 'b'] (.fint 2)
      = .error .typeMismatch := by
  simp [objSetTF, idxOf, keyExists, lookupObj, objGetObject, objGet]

/-- C3 (amended): whenever `SetTF` returns normally — which includes every
path whose intermediate segments are missing (vivified as fresh empty
containers) and, on lists, wrong-variant slots (replaced by fresh
containers) — `GetTF` on the same path returns exactly the value that was
set.  On objects a wrong-variant intermediate panics instead of returning
normally. -/
theorem c3_settf_then_gettf :
    (∀ tf o v o', objSetTF o tf v = .ok o' → objGetTF o' tf = .ok v) ∧
    (∀ tf l v l', listSetTF l tf v = .ok l' → listGetTF l' tf = .ok v) :=
  ⟨fun tf o v o' h => (setTF_getTF tf.length).1 tf o v o' le_rfl h,
   fun tf l v l' h => (setTF_getTF tf.length).2 tf l v l' le_rfl h⟩

/-- C3 witness: setting `.a.b` on an empty object vivifies the
intermediate object `a`, and reading the same path returns the value. -/
theorem c3_settf_then_gettf_witness :
    objSetTF [] ['.', 'a', '.', 'b'] (.fint 2)
        = .ok [(['a'], .fobj [(['b'], .fint 2)])] ∧
    objGetTF [(['a'], .fobj [(['b'], .fint 2)])] ['.', 'a', '.', 'b']
        = .ok (.fint 2) :=
  ⟨by simp [objSetTF, idxOf, keyExists, lookupObj, objSetChecked, objSet],
   c3_settf_then_gettf.1 ['.', 'a', '.', 'b'] [] (.fint 2) _
     (by simp [objSetTF, idxOf, keyExists, lookupObj, objSetChecked, objSet])⟩

theorem digitsRev_lt10 (fuel n : Nat) : ∀ d ∈ digitsRev fuel n, d < 10 := by
  induction fuel generalizing n with
  | zero => simp [digitsRev]
  | succ f ih =>
    intro d hd
    rw [digitsRev] at hd
    split at hd
    · simp at hd
    · rcases List.mem_cons.mp hd with h | h
      · subst h; omega
      · exact ih _ _ h

theorem digitsRev_ofDigits (fuel : Nat) : ∀ n, n ≤ fuel →
    Nat.ofDigits 10 (digitsRev fuel n) = n := by
  induction fuel with
  | zero => intro n h; interval_cases n; simp [digitsRev]
  | succ f ih =>
    intro n h
    rw [digitsRev]
    split
    · simpa using by omega
    · rename_i hn
      rw [Nat.ofDigits_cons, ih (n / 10) (by omega)]
      omega

theorem foldl_reverse_ofDigits (l : List Nat) : ∀ a : Nat,
    List.foldl (fun a d => a * 10 + d) a l.reverse
      = a * 10 ^ l.length + Nat.ofDigits 10 l := by
  induction l with
  | nil => intro a; simp
  | cons d tl ih =>
    intro a
    rw [List.reverse_cons, List.foldl_append, ih a, Nat.ofDigits_cons]
    simp [pow_succ]
    ring

theorem digitChar10_isDigit (d : Nat) (h : d < 10) :
    ('0' ≤ digitChar10 d ∧ digitChar10 d ≤ '9') := by
  interval_cases d <;> exact ⟨by decide, by decide⟩

theorem digitChar10_toNat (d : Nat) (h : d < 10) :
    (digitChar10 d).toNat = 48 + d := by
  interval_cases d <;> decide

theorem scanDigits_digits (ds : List Nat) : ∀ (rest : Str) (acc cnt : Nat),
    (∀ d ∈ ds, d < 10) →
    scanDigits acc cnt (ds.map digitChar10 ++ rest)
      = scanDigits (List.foldl (fun a d => a * 10 + d) acc ds) (cnt + ds.length) rest := by
  induction ds with
  | nil => intro rest acc cnt _; simp
  | cons d tl ih =>
    intro rest acc cnt h
    have hd : d < 10 := h d (List.mem_cons_self d tl)
    have h1 := digitChar10_isDigit d hd
    rw [List.map_cons, List.cons_append, scanDigits,
      if_pos (by simp [decide_eq_true_eq]; exact h1),
      digitChar10_toNat d hd]
    have : 48 + d - 48 = d := by omega
    rw [this, ih rest (acc * 10 + d) (cnt + 1) (fun x hx => h x (List.mem_cons_of_mem d hx))]
    have h2 : cnt + 1 + tl.length = cnt + (d :: tl).length := by simp; omega
    rw [h2, List.foldl_cons]

theorem foldl_replicate_zero (t : Nat) : ∀ a : Nat,
    List.foldl (fun a d => a * 10 + d) a (List.replicate t 0) = a * 10 ^ t := by
  induction t with
  | zero => intro a; simp
  | succ k ih =>
    intro a
    rw [List.replicate_succ, List.foldl_cons, ih]
    ring

theorem renderNat_eq_map (n : Nat) (h : n ≠ 0) :
    renderNat n = ((digitsRev n n).reverse).map digitChar10 := by
  simp [renderNat, h]

theorem digitsRev_rev_lt10 (n : Nat) : ∀ d ∈ (digitsRev n n).reverse, d < 10 := by
  intro d hd
  exact digitsRev_lt10 n n d (List.mem_reverse.mp hd)

theorem foldl_digitsRev_rev (n : Nat) :
    List.foldl (fun a d => a * 10 + d) 0 (digitsRev n n).reverse = n := by
  rw [foldl_reverse_ofDigits, digitsRev_ofDigits n n le_rfl]
  ring

theorem digitsRev_ne_nil (n : Nat) (h : n ≠ 0) : digitsRev n n ≠ [] := by
  match n, h with
  | k + 1, _ => rw [digitsRev]; simp

theorem renderNat_mem_digit (n : Nat) : ∀ c ∈ renderNat n, '0' ≤ c ∧ c ≤ '9' := by
  intro c hc
  by_cases h : n = 0
  · subst h; simp [renderNat] at hc; subst hc; exact ⟨by decide, by decide⟩
  · rw [renderNat_eq_map n h] at hc
    obtain ⟨d, hd, rfl⟩ := List.mem_map.mp hc
    exact digitChar10_isDigit d (digitsRev_rev_lt10 n d hd)

theorem strip10_valQ (fuel : Nat) : ∀ (m e : Int),
    ((strip10 fuel m e).1 : ℚ) * 10 ^ (strip10 fuel m e).2 = (m : ℚ) * 10 ^ e := by
  induction fuel with
  | zero => intro m e; rw [strip10]
  | succ f ih =>
    intro m e
    rw [strip10]
    split
    · rename_i hc
      rw [ih (m / 10) (e + 1)]
      obtain ⟨k, rfl⟩ : (10 : Int) ∣ m := Int.dvd_of_emod_eq_zero hc.2
      rw [Int.mul_ediv_cancel_left _ (by norm_num)]
      push_cast
      rw [zpow_add₀ (by norm_num : (10 : ℚ) ≠ 0)]
      ring
    · rfl

theorem strip10_ne_zero (fuel : Nat) : ∀ (m e : Int), m ≠ 0 →
    (strip10 fuel m e).1 ≠ 0 := by
  induction fuel with
  | zero => intro m e h; rw [strip10]; exact h
  | succ f ih =>
    intro m e h
    rw [strip10]
    split
    · rename_i hc
      refine ih _ _ ?_
      obtain ⟨k, rfl⟩ : (10 : Int) ∣ m := Int.dvd_of_emod_eq_zero hc.2
      rw [Int.mul_ediv_cancel_left _ (by norm_num)]
      intro hk; exact h (by rw [hk, mul_zero])
    · exact h

theorem strip10_neg_iff (fuel : Nat) : ∀ (m e : Int), m ≠ 0 →
    ((strip10 fuel m e).1 < 0 ↔ m < 0) := by
  induction fuel with
  | zero => intro m e h; rw [strip10]
  | succ f ih =>
    intro m e h
    rw [strip10]
    split
    · rename_i hc
      obtain ⟨k, rfl⟩ : (10 : Int) ∣ m := Int.dvd_of_emod_eq_zero hc.2
      have hk : k ≠ 0 := by rintro rfl; exact h (by ring)
      rw [Int.mul_ediv_cancel_left _ (by norm_num), ih k (e + 1) hk]
      constructor <;> intro <;> omega
    · rfl

theorem strip10_not_dvd (fuel : Nat) : ∀ (m e : Int), m ≠ 0 → m.natAbs ≤ fuel →
    (strip10 fuel m e).1 % 10 ≠ 0 := by
  induction fuel with
  | zero => intro m e h hle; omega
  | succ f ih =>
    intro m e h hle
    rw [strip10]
    split
    · rename_i hc
      obtain ⟨k, hk⟩ : (10 : Int) ∣ m := Int.dvd_of_emod_eq_zero hc.2
      subst hk
      have hk0 : k ≠ 0 := by rintro rfl; exact h (by ring)
      rw [Int.mul_ediv_cancel_left _ (by norm_num)]
      refine ih k (e + 1) hk0 ?_
      have : (10 * k).natAbs = 10 * k.natAbs := by
        rw [Int.natAbs_mul]; norm_num
      omega
    · rename_i hc
      push_neg at hc
      exact hc h

theorem contains_underscore_false (s : Str) (h : ∀ c ∈ s, c ≠ '_') :
    s.contains '_' = false := by
  simp
  intro hm
  exact h _ hm rfl

theorem filter_underscore_self (s : Str) (h : ∀ c ∈ s, c ≠ '_') :
    s.filter (· ≠ '_') = s := by
  rw [List.filter_eq_self]
  intro a ha
  simp [h a ha]

theorem parseFloatGo_digit (c : Char) (tl : Str) (hc : '0' ≤ c ∧ c ≤ '9')
    (h : ∀ x ∈ c :: tl, x ≠ '_') :
    parseFloatGo (c :: tl) = parseFloatCore false (c :: tl) := by
  rw [parseFloatGo, if_neg (by simp), contains_underscore_false _ h]
  simp only [Bool.false_and, Bool.false_eq_true, if_false]
  rw [filter_underscore_self _ h]
  split
  · rename_i heq
    rw [List.cons.injEq] at heq
    obtain ⟨rfl, _⟩ := heq
    exact absurd hc.1 (by decide)
  · rename_i heq
    rw [List.cons.injEq] at heq
    obtain ⟨rfl, _⟩ := heq
    exact absurd hc.1 (by decide)
  · rfl

theorem parseFloatGo_neg (tl : Str) (h : ∀ x ∈ tl, x ≠ '_') :
    parseFloatGo ('-' :: tl) = parseFloatCore true tl := by
  have h' : ∀ x ∈ '-' :: tl, x ≠ '_' := by
    intro x hx
    rcases List.mem_cons.mp hx with rfl | hx
    · decide
    · exact h x hx
  rw [parseFloatGo, if_neg (by simp), contains_underscore_false _ h']
  simp only [Bool.false_and, Bool.false_eq_true, if_false]
  rw [filter_underscore_self _ h']
  rfl

theorem scanDigits_nil (acc cnt : Nat) : scanDigits acc cnt [] = (acc, cnt, []) := rfl

theorem scanDigits_dot (acc cnt : Nat) (tl : Str) :
    scanDigits acc cnt ('.' :: tl) = (acc, cnt, '.' :: tl) := by
  rw [scanDigits]; rfl

theorem scanDigits_e (acc cnt : Nat) (tl : Str) :
    scanDigits acc cnt ('e' :: tl) = (acc, cnt, 'e' :: tl) := by
  rw [scanDigits]; rfl

/-- Value of a most-significant-first digit list. -/
def digitsVal (M : List Nat) : Nat := List.foldl (fun a d => a * 10 + d) 0 M

theorem parseFloatCore_digits (neg : Bool) (M : List Nat) (hM : M ≠ [])
    (hlt : ∀ d ∈ M, d < 10) :
    parseFloatCore neg (M.map digitChar10)
      = some ⟨if neg then -(digitsVal M : Int) else (digitsVal M : Int), 0⟩ := by
  have hsc : scanDigits 0 0 (M.map digitChar10)
      = (digitsVal M, 0 + M.length, []) := by
    rw [← List.append_nil (M.map digitChar10), scanDigits_digits M [] 0 0 hlt, scanDigits_nil]
    rfl
  have hlen : M.length ≠ 0 := by
    intro h0; exact hM (List.length_eq_zero.mp h0)
  rw [parseFloatCore, hsc]
  simp only []
  rw [if_neg (by omega)]
  norm_num

theorem parseFloatCore_point (neg : Bool) (L₁ L₂ : List Nat) (h₁ : L₁ ≠ [])
    (hlt₁ : ∀ d ∈ L₁, d < 10) (hlt₂ : ∀ d ∈ L₂, d < 10) :
    parseFloatCore neg (L₁.map digitChar10 ++ '.' :: L₂.map digitChar10)
      = some ⟨if neg then -(digitsVal (L₁ ++ L₂) : Int) else (digitsVal (L₁ ++ L₂) : Int),
          -(L₂.length : Int)⟩ := by
  have hsc1 : scanDigits 0 0 (L₁.map digitChar10 ++ '.' :: L₂.map digitChar10)
      = (digitsVal L₁, 0 + L₁.length, '.' :: L₂.map digitChar10) := by
    rw [scanDigits_digits L₁ _ 0 0 hlt₁, scanDigits_dot]
    rfl
  have hsc2 : scanDigits (digitsVal L₁) 0 (L₂.map digitChar10)
      = (digitsVal (L₁ ++ L₂), 0 + L₂.length, []) := by
    rw [← List.append_nil (L₂.map digitChar10), scanDigits_digits L₂ [] _ 0 hlt₂,
      scanDigits_nil, digitsVal, digitsVal, List.foldl_append]
  have hlen : L₁.length ≠ 0 := by
    intro h0; exact h₁ (List.length_eq_zero.mp h0)
  rw [parseFloatCore, hsc1]
  simp only []
  rw [hsc2]
  simp only []
  rw [if_neg (by omega)]
  norm_num

theorem parseFloatCore_exp_frac (neg sgnE : Bool) (L₁ L₂ E : List Nat)
    (h₁ : L₁ ≠ []) (hE : E ≠ [])
    (hlt₁ : ∀ d ∈ L₁, d < 10) (hlt₂ : ∀ d ∈ L₂, d < 10) (hltE : ∀ d ∈ E, d < 10) :
    parseFloatCore neg (L₁.map digitChar10 ++ '.' :: L₂.map digitChar10
        ++ 'e' :: (if sgnE then '-' else '+') :: E.map digitChar10)
      = some ⟨if neg then -(digitsVal (L₁ ++ L₂) : Int) else (digitsVal (L₁ ++ L₂) : Int),
          (if sgnE then (-1 : Int) else 1) * (digitsVal E : Int) - (L₂.length : Int)⟩ := by
  have hsc1 : scanDigits 0 0 (L₁.map digitChar10 ++ '.' :: L₂.map digitChar10
        ++ 'e' :: (if sgnE then '-' else '+') :: E.map digitChar10)
      = (digitsVal L₁, 0 + L₁.length, '.' :: (L₂.map digitChar10
        ++ 'e' :: (if sgnE then '-' else '+') :: E.map digitChar10)) := by
    rw [List.append_assoc, scanDigits_digits L₁ _ 0 0 hlt₁]
    rw [List.cons_append, scanDigits_dot]
    rfl
  have hsc2 : scanDigits (digitsVal L₁) 0 (L₂.map digitChar10
        ++ 'e' :: (if sgnE then '-' else '+') :: E.map digitChar10)
      = (digitsVal (L₁ ++ L₂), 0 + L₂.length,
         'e' :: (if sgnE then '-' else '+') :: E.map digitChar10) := by
    rw [scanDigits_digits L₂ _ _ 0 hlt₂, scanDigits_e, digitsVal, digitsVal, List.foldl_append]
  have hscE : scanDigits 0 0 (E.map digitChar10) = (digitsVal E, 0 + E.length, []) := by
    rw [← List.append_nil (E.map digitChar10), scanDigits_digits E [] 0 0 hltE, scanDigits_nil]
    rfl
  have hlen : L₁.length ≠ 0 := by
    intro h0; exact h₁ (List.length_eq_zero.mp h0)
  have hlenE : E.length ≠ 0 := by
    intro h0; exact hE (List.length_eq_zero.mp h0)
  rw [parseFloatCore, hsc1]
  simp only []
  rw [hsc2]
  simp only []
  rw [if_neg (by omega)]
  cases sgnE with
  | false => simp [hscE, hlenE]
  | true => simp [hscE, hlenE]

theorem parseFloatCore_exp_nofrac (neg sgnE : Bool) (L₁ E : List Nat)
    (h₁ : L₁ ≠ []) (hE : E ≠ [])
    (hlt₁ : ∀ d ∈ L₁, d < 10) (hltE : ∀ d ∈ E, d < 10) :
    parseFloatCore neg (L₁.map digitChar10
        ++ 'e' :: (if sgnE then '-' else '+') :: E.map digitChar10)
      = some ⟨if neg then -(digitsVal L₁ : Int) else (digitsVal L₁ : Int),
          (if sgnE then (-1 : Int) else 1) * (digitsVal E : Int)⟩ := by
  have hsc1 : scanDigits 0 0 (L₁.map digitChar10
        ++ 'e' :: (if sgnE then '-' else '+') :: E.map digitChar10)
      = (digitsVal L₁, 0 + L₁.length,
         'e' :: (if sgnE then '-' else '+') :: E.map digitChar10) := by
    rw [scanDigits_digits L₁ _ 0 0 hlt₁, scanDigits_e]
    rfl
  have hscE : scanDigits 0 0 (E.map digitChar10) = (digitsVal E, 0 + E.length, []) := by
    rw [← List.append_nil (E.map digitChar10), scanDigits_digits E [] 0 0 hltE, scanDigits_nil]
    rfl
  have hlen : L₁.length ≠ 0 := by
    intro h0; exact h₁ (List.length_eq_zero.mp h0)
  have hlenE : E.length ≠ 0 := by
    intro h0; exact hE (List.length_eq_zero.mp h0)
  rw [parseFloatCore, hsc1]
  simp only []
  rw [if_neg (by omega)]
  cases sgnE with
  | false => simp [hscE, hlenE]
  | true => simp [hscE, hlenE]

theorem digit_ne_underscore (c : Char) (hc : '0' ≤ c ∧ c ≤ '9') : c ≠ '_' := by
  intro h
  subst h
  exact absurd hc (by decide)

theorem digitmap_ne_underscore (M : List Nat) (hlt : ∀ d ∈ M, d < 10) :
    ∀ x ∈ M.map digitChar10, x ≠ '_' := by
  intro x hx
  obtain ⟨d, hd, rfl⟩ := List.mem_map.mp hx
  exact digit_ne_underscore _ (digitChar10_isDigit d (hlt d hd))

theorem renderNat_as_map (n : Nat) : ∃ L, L ≠ [] ∧ (∀ d ∈ L, d < 10) ∧
    renderNat n = L.map digitChar10 ∧ digitsVal L = n := by
  by_cases h : n = 0
  · subst h
    exact ⟨[0], by simp, by simp, rfl, rfl⟩
  · refine ⟨(digitsRev n n).reverse, ?_, digitsRev_rev_lt10 n, renderNat_eq_map n h,
      foldl_digitsRev_rev n⟩
    simp [digitsRev_ne_nil n h]

theorem parseFloatGo_digits_map (M : List Nat) (hM : M ≠ []) (hlt : ∀ d ∈ M, d < 10)
    (suffix : Str) (hsuf : ∀ x ∈ suffix, x ≠ '_') :
    parseFloatGo (M.map digitChar10 ++ suffix)
      = parseFloatCore false (M.map digitChar10 ++ suffix) := by
  cases M with
  | nil => exact absurd rfl hM
  | cons d tl =>
    rw [List.map_cons, List.cons_append]
    refine parseFloatGo_digit _ _ (digitChar10_isDigit d (hlt d (List.mem_cons_self d tl))) ?_
    intro x hx
    rcases List.mem_cons.mp hx with rfl | hx2
    · exact digit_ne_underscore _ (digitChar10_isDigit d (hlt d (List.mem_cons_self d tl)))
    · rcases List.mem_append.mp hx2 with hx3 | hx3
      · exact digitmap_ne_underscore tl (fun x hx => hlt x (List.mem_cons_of_mem d hx)) x hx3
      · exact hsuf x hx3

theorem parseFloat_formatF (d : Dec) :
    ∃ d', parseFloatGo (formatF d) = some d' ∧ valQ d' = valQ d := by
  by_cases hm : d.m = 0
  · refine ⟨⟨0, 0⟩, ?_, by simp [valQ, hm]⟩
    rw [formatF, if_pos hm]
    rfl
  · have hval : ((normDec d).1 : ℚ) * 10 ^ (normDec d).2 = valQ d := by
      simpa [normDec, valQ] using strip10_valQ d.m.natAbs d.m d.e
    have hm' : (normDec d).1 ≠ 0 := strip10_ne_zero _ _ _ hm
    have habs : (((normDec d).1.natAbs : Int) : ℚ) = |((normDec d).1 : ℚ)| := by
      push_cast [Int.cast_natAbs]
      rfl
    obtain ⟨L, hL, hLlt, hLmap, hLval⟩ := renderNat_as_map (normDec d).1.natAbs
    rw [formatF, if_neg hm]
    simp only []
    rw [hLmap]
    by_cases he : 0 ≤ (normDec d).2
    · rw [if_pos he]
      have hrep : List.replicate (normDec d).2.toNat '0'
          = (List.replicate (normDec d).2.toNat 0).map digitChar10 := by
        rw [List.map_replicate]
        rfl
      have hMne : L ++ List.replicate (normDec d).2.toNat 0 ≠ [] := by
        simp [hL]
      have hMlt : ∀ x ∈ L ++ List.replicate (normDec d).2.toNat 0, x < 10 := by
        intro x hx
        rcases List.mem_append.mp hx with h1 | h1
        · exact hLlt x h1
        · rw [List.eq_of_mem_replicate h1]; omega
      have hzp : (10 : ℚ) ^ (normDec d).2 = 10 ^ (normDec d).2.toNat := by
        conv_lhs => rw [← Int.toNat_of_nonneg he]
        rw [zpow_natCast]
      have hMval : (digitsVal (L ++ List.replicate (normDec d).2.toNat 0) : ℚ)
          = ((normDec d).1.natAbs : ℚ) * 10 ^ (normDec d).2 := by
        rw [digitsVal, List.foldl_append,
          show List.foldl (fun a d => a * 10 + d) 0 L = digitsVal L from rfl, hLval,
          foldl_replicate_zero, hzp]
        push_cast
        ring
      by_cases hneg : (normDec d).1 < 0
      · rw [if_pos hneg, hrep, List.append_assoc, ← List.map_append, List.singleton_append,
          parseFloatGo_neg _ (digitmap_ne_underscore _ hMlt),
          parseFloatCore_digits true _ hMne hMlt]
        refine ⟨_, rfl, ?_⟩
        rw [valQ]
        simp only []
        rw [← hval]
        have h1 : (((normDec d).1.natAbs : ℚ)) = -((normDec d).1 : ℚ) := by
          rw [Int.cast_natAbs]
          exact_mod_cast abs_of_nonpos (le_of_lt hneg)
        push_cast
        rw [hMval, h1, zpow_zero]
        ring
      · rw [if_neg hneg, hrep, List.append_assoc, ← List.map_append, List.nil_append,
          ← List.append_nil (List.map digitChar10 (L ++ List.replicate (normDec d).2.toNat 0)),
          parseFloatGo_digits_map _ hMne hMlt [] (by simp), List.append_nil,
          parseFloatCore_digits false _ hMne hMlt]
        refine ⟨_, rfl, ?_⟩
        rw [valQ]
        simp only []
        rw [← hval]
        have h1 : (((normDec d).1.natAbs : ℚ)) = ((normDec d).1 : ℚ) := by
          rw [Int.cast_natAbs]
          exact_mod_cast abs_of_nonneg (not_lt.mp hneg)
        push_cast
        rw [hMval, h1, zpow_zero]
        ring
    · rw [if_neg he]
      by_cases hlt2 : (-(normDec d).2).toNat < (List.map digitChar10 L).length
      · rw [if_pos hlt2]
        rw [List.length_map] at hlt2
        rw [List.length_map, ← List.map_take, ← List.map_drop]
        have h₁ne : L.take (L.length - (-(normDec d).2).toNat) ≠ [] := by
          intro h0
          have := congrArg List.length h0
          simp [List.length_take] at this
          omega
        have h₁lt : ∀ x ∈ L.take (L.length - (-(normDec d).2).toNat), x < 10 :=
          fun x hx => hLlt x (List.take_subset _ _ hx)
        have h₂lt : ∀ x ∈ L.drop (L.length - (-(normDec d).2).toNat), x < 10 :=
          fun x hx => hLlt x (List.drop_subset _ _ hx)
        have h₂len : (L.drop (L.length - (-(normDec d).2).toNat)).length
            = (-(normDec d).2).toNat := by
          rw [List.length_drop]; omega
        have hexp : -((L.drop (L.length - (-(normDec d).2).toNat)).length : Int)
            = (normDec d).2 := by
          rw [h₂len]; omega
        have hvalM : (digitsVal (L.take (L.length - (-(normDec d).2).toNat)
              ++ L.drop (L.length - (-(normDec d).2).toNat)) : ℚ)
            = ((normDec d).1.natAbs : ℚ) := by
          rw [List.take_append_drop, hLval]
        have hund : ∀ x ∈ List.map digitChar10 (L.take (L.length - (-(normDec d).2).toNat))
            ++ '.' :: List.map digitChar10 (L.drop (L.length - (-(normDec d).2).toNat)),
            x ≠ '_' := by
          intro x hx
          rcases List.mem_append.mp hx with h1 | h1
          · exact digitmap_ne_underscore _ h₁lt x h1
          · rcases List.mem_cons.mp h1 with rfl | h2
            · decide
            · exact digitmap_ne_underscore _ h₂lt x h2
        by_cases hneg : (normDec d).1 < 0
        · rw [if_pos hneg, List.append_assoc, List.singleton_append,
            parseFloatGo_neg _ hund,
            parseFloatCore_point true _ _ h₁ne h₁lt h₂lt]
          refine ⟨_, rfl, ?_⟩
          rw [valQ]
          simp only []
          rw [← hval, hexp]
          have h1 : (((normDec d).1.natAbs : ℚ)) = -((normDec d).1 : ℚ) := by
            rw [Int.cast_natAbs]
            exact_mod_cast abs_of_nonpos (le_of_lt hneg)
          push_cast
          rw [hvalM, h1]
          ring
        · rw [if_neg hneg, List.nil_append,
            parseFloatGo_digits_map _ h₁ne h₁lt _ (by
              intro x hx
              rcases List.mem_cons.mp hx with rfl | h2
              · decide
              · exact digitmap_ne_underscore _ h₂lt x h2),
            parseFloatCore_point false _ _ h₁ne h₁lt h₂lt]
          refine ⟨_, rfl, ?_⟩
          rw [valQ]
          simp only []
          rw [← hval, hexp]
          have h1 : (((normDec d).1.natAbs : ℚ)) = ((normDec d).1 : ℚ) := by
            rw [Int.cast_natAbs]
            exact_mod_cast abs_of_nonneg (not_lt.mp hneg)
          push_cast
          rw [hvalM, h1]
      · rw [if_neg hlt2]
        rw [List.length_map] at hlt2
        rw [List.length_map]
        have hrep : List.replicate ((-(normDec d).2).toNat - L.length) '0'
            = (List.replicate ((-(normDec d).2).toNat - L.length) 0).map digitChar10 := by
          rw [List.map_replicate]
          rfl
        have h₂lt : ∀ x ∈ List.replicate ((-(normDec d).2).toNat - L.length) 0 ++ L,
            x < 10 := by
          intro x hx
          rcases List.mem_append.mp hx with h1 | h1
          · rw [List.eq_of_mem_replicate h1]; omega
          · exact hLlt x h1
        have h₂len : (List.replicate ((-(normDec d).2).toNat - L.length) 0 ++ L).length
            = (-(normDec d).2).toNat := by
          rw [List.length_append, List.length_replicate]
          omega
        have hexp : -(((List.replicate ((-(normDec d).2).toNat - L.length) 0 ++ L).length : Int))
            = (normDec d).2 := by
          rw [h₂len]; omega
        have hvalM : (digitsVal ([0] ++ (List.replicate ((-(normDec d).2).toNat - L.length) 0 ++ L)) : ℚ)
            = ((normDec d).1.natAbs : ℚ) := by
          rw [show ([0] ++ (List.replicate ((-(normDec d).2).toNat - L.length) 0 ++ L))
              = 0 :: (List.replicate ((-(normDec d).2).toNat - L.length) 0 ++ L) from rfl]
          rw [show digitsVal (0 :: (List.replicate ((-(normDec d).2).toNat - L.length) 0 ++ L))
              = digitsVal (List.replicate ((-(normDec d).2).toNat - L.length) 0 ++ L) from rfl]
          rw [digitsVal, List.foldl_append, foldl_replicate_zero, zero_mul,
            show List.foldl (fun a d => a * 10 + d) 0 L = digitsVal L from rfl, hLval]
        have hshape : (('0' : Char) :: '.' :: List.replicate ((-(normDec d).2).toNat - L.length) '0')
              ++ List.map digitChar10 L
            = ([0].map digitChar10) ++ '.' :: ((List.replicate ((-(normDec d).2).toNat - L.length) 0
              ++ L).map digitChar10) := by
          rw [List.map_append, ← hrep]
          simp [List.cons_append]
          decide
        by_cases hneg : (normDec d).1 < 0
        · rw [if_pos hneg, List.singleton_append, List.cons_append, hshape,
            parseFloatGo_neg _ (by
              intro x hx
              rcases List.mem_append.mp hx with h1 | h1
              · exact digitmap_ne_underscore _ (by simp) x h1
              · rcases List.mem_cons.mp h1 with rfl | h2
                · decide
                · exact digitmap_ne_underscore _ h₂lt x h2),
            parseFloatCore_point true _ _ (by simp) (by simp) h₂lt]
          refine ⟨_, rfl, ?_⟩
          rw [valQ]
          simp only []
          rw [← hval, hexp]
          have h1 : (((normDec d).1.natAbs : ℚ)) = -((normDec d).1 : ℚ) := by
            rw [Int.cast_natAbs]
            exact_mod_cast abs_of_nonpos (le_of_lt hneg)
          push_cast
          rw [hvalM, h1]
          ring
        · rw [if_neg hneg, List.nil_append, hshape,
            parseFloatGo_digits_map _ (by simp) (by simp) _ (by
              intro x hx
              rcases List.mem_cons.mp hx with rfl | h2
              · decide
              · exact digitmap_ne_underscore _ h₂lt x h2),
            parseFloatCore_point false _ _ (by simp) (by simp) h₂lt]
          refine ⟨_, rfl, ?_⟩
          rw [valQ]
          simp only []
          rw [← hval, hexp]
          have h1 : (((normDec d).1.natAbs : ℚ)) = ((normDec d).1 : ℚ) := by
            rw [Int.cast_natAbs]
            exact_mod_cast abs_of_nonneg (not_lt.mp hneg)
          push_cast
          rw [hvalM, h1]

theorem parseFloat_formatE (d : Dec) :
    ∃ d', parseFloatGo (formatE d) = some d' ∧ valQ d' = valQ d := by
  by_cases hm : d.m = 0
  · refine ⟨⟨0, 0⟩, ?_, by simp [valQ, hm]⟩
    rw [formatE, if_pos hm]
    rfl
  · have hval : ((normDec d).1 : ℚ) * 10 ^ (normDec d).2 = valQ d := by
      simpa [normDec, valQ] using strip10_valQ d.m.natAbs d.m d.e
    have hm' : (normDec d).1 ≠ 0 := strip10_ne_zero _ _ _ hm
    obtain ⟨L, hL, hLlt, hLmap, hLval⟩ := renderNat_as_map (normDec d).1.natAbs
    rw [formatE, if_neg hm]
    simp only []
    rw [hLmap]
    cases L with
    | nil => exact absurd rfl hL
    | cons d₀ Ltl =>
      simp only [List.map_cons, List.length_cons, List.length_map]
      set ex : Int := (normDec d).2 + ((Ltl.length + 1 : Nat) : Int) - 1 with hexdef
      obtain ⟨E, hE, hElt, hEmap, hEval⟩ := renderNat_as_map ex.natAbs
      rw [hEmap]
      have hpadE : ∃ E', (if (List.map digitChar10 E).length < 2
            then '0' :: List.map digitChar10 E else List.map digitChar10 E)
          = List.map digitChar10 E' ∧ E' ≠ [] ∧ (∀ x ∈ E', x < 10)
          ∧ digitsVal E' = digitsVal E := by
        by_cases hp : (List.map digitChar10 E).length < 2
        · refine ⟨0 :: E, by rw [if_pos hp]; rfl, by simp, ?_, rfl⟩
          intro x hx
          rcases List.mem_cons.mp hx with rfl | h
          · omega
          · exact hElt x h
        · exact ⟨E, by rw [if_neg hp], hE, hElt, rfl⟩
      obtain ⟨E', hE'eq, hE'ne, hE'lt, hE'val⟩ := hpadE
      rw [hE'eq]
      have hd₀ : d₀ < 10 := hLlt d₀ (List.mem_cons_self d₀ Ltl)
      by_cases hrest : Ltl = []
      · subst hrest
        simp only [List.map_nil, List.length_nil]
        simp only [if_true]
        have hex2 : ex = (normDec d).2 := by rw [hexdef]; simp
        have hund : ∀ x ∈ digitChar10 d₀ :: 'e' :: '-' :: List.map digitChar10 E',
            x ≠ '_' := by
          intro x hx
          rcases List.mem_cons.mp hx with rfl | hx
          · exact digit_ne_underscore _ (digitChar10_isDigit _ hd₀)
          rcases List.mem_cons.mp hx with rfl | hx
          · decide
          rcases List.mem_cons.mp hx with rfl | hx
          · decide
          exact digitmap_ne_underscore _ hE'lt x hx
        have hund2 : ∀ x ∈ digitChar10 d₀ :: 'e' :: '+' :: List.map digitChar10 E',
            x ≠ '_' := by
          intro x hx
          rcases List.mem_cons.mp hx with rfl | hx
          · exact digit_ne_underscore _ (digitChar10_isDigit _ hd₀)
          rcases List.mem_cons.mp hx with rfl | hx
          · decide
          rcases List.mem_cons.mp hx with rfl | hx
          · decide
          exact digitmap_ne_underscore _ hE'lt x hx
        by_cases hex : ex < 0
        · rw [if_pos hex]
          simp only [List.append_assoc, List.cons_append, List.singleton_append,
            List.nil_append]
          have hexeq : (-1 : Int) * (digitsVal E' : Int) = (normDec d).2 := by
            rw [hE'val, hEval]
            omega
          by_cases hneg : (normDec d).1 < 0
          · have hcore := parseFloatCore_exp_nofrac true true [d₀] E' (by simp) hE'ne
              (by simpa using hd₀) hE'lt
            simp only [List.map_cons, List.map_nil, List.singleton_append,
              show (false = true) = False from by simp, if_true, if_false] at hcore
            rw [if_pos hneg, List.singleton_append, parseFloatGo_neg _ hund, hcore]
            refine ⟨_, rfl, ?_⟩
            rw [valQ]
            simp only []
            rw [← hval, hexeq, hLval]
            push_cast
            rw [abs_of_nonpos (by exact_mod_cast le_of_lt hneg : ((normDec d).1 : ℚ) ≤ 0)]
            ring
          · have hcore := parseFloatCore_exp_nofrac false true [d₀] E' (by simp) hE'ne
              (by simpa using hd₀) hE'lt
            simp only [List.map_cons, List.map_nil, List.singleton_append,
              show (false = true) = False from by simp, if_true, if_false] at hcore
            rw [if_neg hneg, List.nil_append,
              parseFloatGo_digit _ _ (digitChar10_isDigit _ hd₀) hund, hcore]
            refine ⟨_, rfl, ?_⟩
            rw [valQ]
            simp only []
            rw [← hval, hexeq, hLval]
            push_cast
            rw [abs_of_nonneg (by exact_mod_cast not_lt.mp hneg : (0 : ℚ) ≤ ((normDec d).1 : ℚ))]
        · rw [if_neg hex]
          simp only [List.append_assoc, List.cons_append, List.singleton_append,
            List.nil_append]
          have hexeq : (1 : Int) * (digitsVal E' : Int) = (normDec d).2 := by
            rw [hE'val, hEval]
            omega
          by_cases hneg : (normDec d).1 < 0
          · have hcore := parseFloatCore_exp_nofrac true false [d₀] E' (by simp) hE'ne
              (by simpa using hd₀) hE'lt
            simp only [List.map_cons, List.map_nil, List.singleton_append,
              show (false = true) = False from by simp, if_true, if_false] at hcore
            rw [if_pos hneg, List.singleton_append, parseFloatGo_neg _ hund2, hcore]
            refine ⟨_, rfl, ?_⟩
            rw [valQ]
            simp only []
            rw [← hval, hexeq, hLval]
            push_cast
            rw [abs_of_nonpos (by exact_mod_cast le_of_lt hneg : ((normDec d).1 : ℚ) ≤ 0)]
            ring
          · have hcore := parseFloatCore_exp_nofrac false false [d₀] E' (by simp) hE'ne
              (by simpa using hd₀) hE'lt
            simp only [List.map_cons, List.map_nil, List.singleton_append,
              show (false = true) = False from by simp, if_true, if_false] at hcore
            rw [if_neg hneg, List.nil_append,
              parseFloatGo_digit _ _ (digitChar10_isDigit _ hd₀) hund2, hcore]
            refine ⟨_, rfl, ?_⟩
            rw [valQ]
            simp only []
            rw [← hval, hexeq, hLval]
            push_cast
            rw [abs_of_nonneg (by exact_mod_cast not_lt.mp hneg : (0 : ℚ) ≤ ((normDec d).1 : ℚ))]
      · rw [if_neg (show ¬(List.map digitChar10 Ltl = []) from by simpa using hrest)]
        have hLtlt : ∀ x ∈ Ltl, x < 10 := fun x hx => hLlt x (List.mem_cons_of_mem d₀ hx)
        have hundF : ∀ sg : Char, sg = '-' ∨ sg = '+' →
            ∀ x ∈ digitChar10 d₀ :: '.'
              :: (List.map digitChar10 Ltl ++ 'e' :: sg :: List.map digitChar10 E'),
            x ≠ '_' := by
          intro sg hsg x hx
          rcases List.mem_cons.mp hx with rfl | hx
          · exact digit_ne_underscore _ (digitChar10_isDigit _ hd₀)
          rcases List.mem_cons.mp hx with rfl | hx
          · decide
          rcases List.mem_append.mp hx with hx | hx
          · exact digitmap_ne_underscore _ hLtlt x hx
          rcases List.mem_cons.mp hx with rfl | hx
          · decide
          rcases List.mem_cons.mp hx with rfl | hx
          · rcases hsg with rfl | rfl <;> decide
          exact digitmap_ne_underscore _ hE'lt x hx
        by_cases hex : ex < 0
        · rw [if_pos hex]
          simp only [List.append_assoc, List.cons_append, List.singleton_append,
            List.nil_append]
          have hexeq : (-1 : Int) * (digitsVal E' : Int) - (Ltl.length : Int)
              = (normDec d).2 := by
            rw [hE'val, hEval]
            omega
          by_cases hneg : (normDec d).1 < 0
          · have hcore := parseFloatCore_exp_frac true true [d₀] Ltl E' (by simp) hE'ne
              (by simpa using hd₀) hLtlt hE'lt
            simp only [List.map_cons, List.map_nil, List.singleton_append, List.cons_append,
              List.append_assoc, List.nil_append,
              show (false = true) = False from by simp, if_true, if_false] at hcore
            rw [if_pos hneg, List.singleton_append,
              parseFloatGo_neg _ (hundF '-' (Or.inl rfl)), hcore]
            refine ⟨_, rfl, ?_⟩
            rw [valQ]
            simp only []
            rw [← hval, hexeq, hLval]
            push_cast
            rw [abs_of_nonpos (by exact_mod_cast le_of_lt hneg : ((normDec d).1 : ℚ) ≤ 0)]
            ring
          · have hcore := parseFloatCore_exp_frac false true [d₀] Ltl E' (by simp) hE'ne
              (by simpa using hd₀) hLtlt hE'lt
            simp only [List.map_cons, List.map_nil, List.singleton_append, List.cons_append,
              List.append_assoc, List.nil_append,
              show (false = true) = False from by simp, if_true, if_false] at hcore
            rw [if_neg hneg, List.nil_append,
              parseFloatGo_digit _ _ (digitChar10_isDigit _ hd₀) (hundF '-' (Or.inl rfl)),
              hcore]
            refine ⟨_, rfl, ?_⟩
            rw [valQ]
            simp only []
            rw [← hval, hexeq, hLval]
            push_cast
            rw [abs_of_nonneg (by exact_mod_cast not_lt.mp hneg : (0 : ℚ) ≤ ((normDec d).1 : ℚ))]
        · rw [if_neg hex]
          simp only [List.append_assoc, List.cons_append, List.singleton_append,
            List.nil_append]
          have hexeq : (1 : Int) * (digitsVal E' : Int) - (Ltl.length : Int)
              = (normDec d).2 := by
            rw [hE'val, hEval]
            omega
          by_cases hneg : (normDec d).1 < 0
          · have hcore := parseFloatCore_exp_frac true false [d₀] Ltl E' (by simp) hE'ne
              (by simpa using hd₀) hLtlt hE'lt
            simp only [List.map_cons, List.map_nil, List.singleton_append, List.cons_append,
              List.append_assoc, List.nil_append,
              show (false = true) = False from by simp, if_true, if_false] at hcore
            rw [if_pos hneg, List.singleton_append,
              parseFloatGo_neg _ (hundF '+' (Or.inr rfl)), hcore]
            refine ⟨_, rfl, ?_⟩
            rw [valQ]
            simp only []
            rw [← hval, hexeq, hLval]
            push_cast
            rw [abs_of_nonpos (by exact_mod_cast le_of_lt hneg : ((normDec d).1 : ℚ) ≤ 0)]
            ring
          · have hcore := parseFloatCore_exp_frac false false [d₀] Ltl E' (by simp) hE'ne
              (by simpa using hd₀) hLtlt hE'lt
            simp only [List.map_cons, List.map_nil, List.singleton_append, List.cons_append,
              List.append_assoc, List.nil_append,
              show (false = true) = False from by simp, if_true, if_false] at hcore
            rw [if_neg hneg, List.nil_append,
              parseFloatGo_digit _ _ (digitChar10_isDigit _ hd₀) (hundF '+' (Or.inr rfl)),
              hcore]
            refine ⟨_, rfl, ?_⟩
            rw [valQ]
            simp only []
            rw [← hval, hexeq, hLval]
            push_cast
            rw [abs_of_nonneg (by exact_mod_cast not_lt.mp hneg : (0 : ℚ) ≤ ((normDec d).1 : ℚ))]

theorem renderNat_no_e (n : Nat) : ('e' : Char) ∉ renderNat n := by
  intro h
  have := renderNat_mem_digit n _ h
  exact absurd this (by decide)

theorem renderNat_take_no_e (n k : Nat) : ('e' : Char) ∉ (renderNat n).take k :=
  fun h => renderNat_no_e n (List.mem_of_mem_take h)

theorem renderNat_drop_no_e (n k : Nat) : ('e' : Char) ∉ (renderNat n).drop k :=
  fun h => renderNat_no_e n (List.mem_of_mem_drop h)

theorem formatF_no_e (d : Dec) : ('e' : Char) ∉ formatF d := by
  intro hmem
  rw [formatF] at hmem
  split at hmem
  · simp at hmem
  · simp only [] at hmem
    repeat' split at hmem
    all_goals revert hmem
    all_goals
      simp [List.mem_append, List.mem_cons, List.mem_replicate, renderNat_no_e,
        renderNat_take_no_e, renderNat_drop_no_e]

theorem formatE_has_e (d : Dec) : ('e' : Char) ∈ formatE d := by
  rw [formatE]
  split
  · decide
  · simp only []
    exact List.mem_append_left _ (List.mem_append_right _ (List.mem_cons_self _ _))

theorem valQ_dabs (d : Dec) : valQ d.dabs = |valQ d| := by
  rw [valQ, valQ, Dec.dabs]
  simp only []
  rw [abs_mul, abs_of_pos (by positivity : (0 : ℚ) < 10 ^ d.e)]
  push_cast
  rfl

theorem serialize_cond_iff (d : Dec) :
    (Dec.dle ⟨1, 6⟩ d.dabs || (Dec.dlt ⟨0, 0⟩ d.dabs && Dec.dle d.dabs ⟨1, -6⟩)) = true
      ↔ ((10 : ℚ) ^ (6 : Int) ≤ |valQ d|
          ∨ (0 < |valQ d| ∧ |valQ d| ≤ (10 : ℚ) ^ (-6 : Int))) := by
  rw [Bool.or_eq_true, Bool.and_eq_true, dle_iff, dlt_iff, dle_iff, valQ_dabs]
  simp [valQ]

theorem atFloatSerialize_e_iff (d : Dec) :
    (('e' : Char) ∈ atFloatSerialize d) ↔
      ((10 : ℚ) ^ (6 : Int) ≤ |valQ d|
        ∨ (0 < |valQ d| ∧ |valQ d| ≤ (10 : ℚ) ^ (-6 : Int))) := by
  rw [atFloatSerialize]
  split
  · rename_i hc
    simp only [iff_true_intro (formatE_has_e d), true_iff]
    exact (serialize_cond_iff d).mp hc
  · rename_i hc
    constructor
    · intro hmem
      exact absurd hmem (formatF_no_e d)
    · intro hcond
      exact absurd ((serialize_cond_iff d).mpr hcond) hc

theorem parseFloat_atFloatSerialize (d : Dec) :
    ∃ d', parseFloatGo (atFloatSerialize d) = some d' ∧ valQ d' = valQ d := by
  rw [atFloatSerialize]
  split
  · exact parseFloat_formatE d
  · exact parseFloat_formatF d

/-- C5: the serialization policy of `atFloat.serialize`: the value is
rendered in exponential notation exactly when its magnitude is at least
`10^6` or nonzero and at most `10^-6`, and in fixed notation otherwise;
in both regimes the rendering is exact (`ParseFloat` recovers exactly the
value serialized), and the mantissa emitted is canonical — trailing zeros
are stripped into the exponent, which is the shortest exact decimal
mantissa for the value. -/
theorem c5_float_serialization_policy :
    (∀ d : Dec, (('e' : Char) ∈ atFloatSerialize d ↔
        ((10 : ℚ) ^ (6 : Int) ≤ |valQ d|
          ∨ (0 < |valQ d| ∧ |valQ d| ≤ (10 : ℚ) ^ (-6 : Int))))) ∧
    (∀ d : Dec, ∃ d', parseFloatGo (atFloatSerialize d) = some d' ∧ valQ d' = valQ d) ∧
    (∀ d : Dec, d.m ≠ 0 → (normDec d).1 % 10 ≠ 0 ∧
      ((normDec d).1 : ℚ) * 10 ^ (normDec d).2 = valQ d) :=
  ⟨atFloatSerialize_e_iff,
   parseFloat_atFloatSerialize,
   fun d hm =>
     ⟨strip10_not_dvd d.m.natAbs d.m d.e hm le_rfl,
      by simpa [normDec, valQ] using strip10_valQ d.m.natAbs d.m d.e⟩⟩

end AnyType
